import Mathlib

/-!
Shallow embedding of the warehouse simulation core (`config.py`, `item.py`,
`cell.py`, `grid.py`, `pathfinder.py`, `bot.py`) and proofs about it.

Conventions of the embedding:
* Python `int` becomes `ℤ` (or `ℕ` for values that are provably nonnegative,
  such as A* g-scores), Python `float` positions and speeds become `ℚ`.
* `math.hypot` is a `float → float → float` function; the embedding takes it
  as a parameter `hyp : ℚ → ℚ → ℚ` together with the hypotheses about it that
  the code relies on (`HypotSpec`).  All movement in the simulation is
  axis-aligned, where `hypot` is exact.
* Python object identity of `Cell`s inside a `Grid` is modelled by the index
  of the cell in a flattened (column-major, as in `grid.py`) cell list.
* `random.choice` in `Grid.find_empty_storage_cell` is modelled by an oracle
  `ℕ → ℕ` giving, for each successive call, an arbitrary index into the
  candidate list.  `random.Random` seeding in `item.py` is irrelevant here
  because every claim fixes the preference values explicitly.
* Stateful methods become functions returning the updated state; the
  `while` loops of `bot.py` and `pathfinder.py` become fuel recursion with a
  fuel that provably dominates the number of iterations.
-/

namespace Warehouse

/-! ### config.py -/

def GRID_WIDTH : ℤ := 10
def GRID_HEIGHT : ℤ := 10
def INBOUND_CELLS : ℤ := 5
def OUTBOUND_CELLS : ℤ := 5
def MAX_ITEMS_PER_CELL : ℕ := 20
def MAX_SPEED_CELLS_PER_SEC : ℚ := 2
def ACCEL_TIME : ℚ := 1/10
def DECEL_TIME : ℚ := 1/10

/-! ### item.py and cell.py -/

/-- `Item`: identity code plus mutable preference (`item.py`). -/
structure Item where
  code : String
  preference : ℤ
deriving DecidableEq, Inhabited

/-- The `cell_type` strings of `cell.py`. -/
inductive CellType where
  | storage
  | inbound
  | outbound
deriving DecidableEq, Inhabited

/-- A grid cell: coordinates, type and the item stack (index 0 is the top). -/
structure Cell where
  x : ℤ
  y : ℤ
  type : CellType
  items : List Item
deriving DecidableEq, Inhabited

/-- `Cell.add_item`: refuse when a storage cell is at capacity, else push on
top (index 0).  Returns the Python boolean plus the updated cell. -/
def Cell.add_item (c : Cell) (it : Item) : Bool × Cell :=
  if c.type = CellType.storage ∧ MAX_ITEMS_PER_CELL ≤ c.items.length then
    (false, c)
  else
    (true, { c with items := it :: c.items })

/-- `Cell.remove_item`: pop the top item, or `none` on an empty stack. -/
def Cell.remove_item (c : Cell) : Option Item × Cell :=
  match c.items with
  | [] => (none, c)
  | it :: rest => (some it, { c with items := rest })

/-- The scan of `Cell.needs_resort`: some adjacent pair has the upper item
with a strictly smaller preference than the item below it. -/
def needs_resort_scan : List Item → Bool
  | a :: b :: rest => decide (a.preference < b.preference) || needs_resort_scan (b :: rest)
  | _ => false

/-- `Cell.needs_resort` from `cell.py`. -/
def Cell.needs_resort (c : Cell) : Bool :=
  needs_resort_scan c.items

/-- Stable insertion into a non-increasing (by preference) list: the new
element goes after all elements with a greater-or-equal preference. -/
def insert_desc (x : Item) : List Item → List Item
  | [] => [x]
  | y :: ys => if x.preference ≤ y.preference then y :: insert_desc x ys else x :: y :: ys

/-- `sorted(items, key=lambda it: it.preference, reverse=True)`: a stable
descending sort by preference (CPython's sort is stable, and `reverse=True`
preserves the relative order of equal keys). -/
def sorted_desc (l : List Item) : List Item :=
  l.foldl (fun acc x => insert_desc x acc) []

/-! ### grid.py

A `Grid` is the flattened cell matrix in the iteration order of `grid.py`
(`for col in self.cells: for cell in col`, i.e. column-major).  Python object
identity of cells is the list index. -/

/-- The cell-type assignment rule of `Grid.__init__`. -/
def cell_type_at (width x y : ℤ) : CellType :=
  if x = 0 ∧ y < INBOUND_CELLS then CellType.inbound
  else if x = width - 1 ∧ y < OUTBOUND_CELLS then CellType.outbound
  else CellType.storage

/-- The default 10×10 grid of `Grid.__init__`, flattened column-major. -/
def build_grid : List Cell :=
  (List.range 10).flatMap fun x =>
    (List.range 10).map fun y =>
      ⟨(x : ℤ), (y : ℤ), cell_type_at GRID_WIDTH (x : ℤ) (y : ℤ), []⟩

/-- Apply `f` to the cell at index `i` (no-op when out of range). -/
def update_cell (g : List Cell) (i : ℕ) (f : Cell → Cell) : List Cell :=
  match g[i]? with
  | some c => g.set i (f c)
  | none => g

/-- `Grid.find_empty_storage_cell`: candidates are storage cells with spare
capacity not in the exclusion set; `random.choice` is modelled by `choice`,
an arbitrary index into the candidate list. -/
def find_empty_storage_cell (choice : ℕ) (g : List Cell) (excl : List ℕ) :
    Option ℕ :=
  let cands := (List.range g.length).filter fun i =>
    match g[i]? with
    | some c =>
        decide (c.type = CellType.storage) &&
        decide (c.items.length < MAX_ITEMS_PER_CELL) && !(excl.contains i)
    | none => false
  match cands with
  | [] => none
  | _ :: _ => some (cands.getD (choice % cands.length) 0)

/-- The `while cell.items:` loop of the resort branch of
`Bot._on_reach_destination`: repeatedly pop the top item of the target cell
`t` and push it onto a freshly chosen spare-capacity storage cell (excluding
the target and the scratch cells already used), until the target is empty or
no scratch cell is available.  Each iteration removes one item from `t`, so a
fuel equal to the initial stack height of `t` realises the loop exactly. -/
def resort_move_loop (oracle : ℕ → ℕ) (t : ℕ) :
    ℕ → ℕ → List Cell → List ℕ → List Cell × List ℕ
  | 0, _, g, temp => (g, temp)
  | fuel + 1, k, g, temp =>
    match g[t]? with
    | none => (g, temp)
    | some tc =>
      match tc.items with
      | [] => (g, temp)
      | _ :: _ =>
        match find_empty_storage_cell (oracle k) g (t :: temp) with
        | none => (g, temp)
        | some s =>
          let (pick, tc') := tc.remove_item
          let g' := g.set t tc'
          let g'' :=
            match pick with
            | some it => update_cell g' s (fun c => (c.add_item it).2)
            | none => g'
          resort_move_loop oracle t fuel (k + 1) g'' (temp ++ [s])

/-- The collection loop of the resort branch: for each scratch cell in order,
take all of its items and clear it. -/
def collect_clear : List ℕ → List Cell → List Item × List Cell
  | [], g => ([], g)
  | i :: rest, g =>
    let its := (g.getD i default).items
    let g' := update_cell g i (fun c => { c with items := [] })
    let (more, g'') := collect_clear rest g'
    (its ++ more, g'')

/-- The full resort algorithm of the resort branch of
`Bot._on_reach_destination`, acting on the grid with target cell index `t`:
move items out to scratch cells, collect and clear the scratch cells, sort
descending by preference, and push the sorted sequence back one by one with
`add_item` (whose boolean result the Python code ignores). -/
def resort_cell (oracle : ℕ → ℕ) (g : List Cell) (t : ℕ) : List Cell :=
  match g[t]? with
  | none => g
  | some tc =>
    let (g1, temp) := resort_move_loop oracle t tc.items.length 0 g []
    let (allItems, g2) := collect_clear temp g1
    let sortedItems := sorted_desc allItems
    sortedItems.foldl (fun h it => update_cell h t (fun c => (c.add_item it).2)) g2

/-! ### pathfinder.py

`find_path` is A* over the 10×10 grid (every caller in the repository uses
the default `grid_size`, which falls back to the config dimensions).  The
`heapq` priority queue holds `(f_score, counter, node)` tuples; counters are
pairwise distinct, so `heappop` returns exactly the entry with the least
`(f_score, counter)` pair and the node component is never compared.  The
heap is therefore modelled as a plain list with minimum extraction. -/

/-- A grid coordinate, a Python `(x, y)` tuple of ints. -/
abbrev Node := ℤ × ℤ

/-- The Manhattan-distance heuristic of `find_path`. -/
def heuristic (a b : Node) : ℕ :=
  (a.1 - b.1).natAbs + (a.2 - b.2).natAbs

/-- The bounds check `not (nx < 0 or nx >= width or ny < 0 or ny >= height)`. -/
def in_bounds (width height : ℤ) (n : Node) : Bool :=
  decide (0 ≤ n.1) && decide (n.1 < width) && decide (0 ≤ n.2) && decide (n.2 < height)

/-- A heap entry `(f_score, counter, node)`. -/
abbrev Entry := ℕ × ℕ × Node

/-- Strict order on heap entries by `(f_score, counter)`; with distinct
counters this is exactly the tuple order `heapq` uses. -/
def entry_lt (a b : Entry) : Bool :=
  decide (a.1 < b.1) || (decide (a.1 = b.1) && decide (a.2.1 < b.2.1))

/-- Least entry of `e :: l` under `entry_lt` (first occurrence wins ties,
which cannot arise because counters are distinct). -/
def min_entry (e : Entry) (l : List Entry) : Entry :=
  l.foldl (fun m x => if entry_lt x m then x else m) e

/-- `heappop` on the list model: remove and return the least entry. -/
def pop_min (l : List Entry) : Option (Entry × List Entry) :=
  match l with
  | [] => none
  | x :: xs =>
    let m := min_entry x xs
    some (m, l.erase m)

/-- The neighbour directions of `find_path`, in source order. -/
def dirs : List Node := [(1, 0), (-1, 0), (0, 1), (0, -1)]

/-- The mutable search state of `find_path`: the open heap, the quick
membership set `open_set_nodes`, the three dictionaries and the tie-breaking
counter. -/
structure AState where
  openH : List Entry
  openNodes : List Node
  cameFrom : Node → Option Node
  gScore : Node → Option ℕ
  fScore : Node → Option ℕ
  counter : ℕ

/-- The neighbour `(x + dx, y + dy)` of the expansion loop. -/
def step_dir (n d : Node) : Node := (n.1 + d.1, n.2 + d.2)

/-- Processing of one neighbour direction in the expansion loop of
`find_path`: bounds check, blocked check, tentative g-score comparison
(`g_score.get(neighbor, inf)` is `none`-is-infinity), dictionary updates and
a conditional push.  `g_score[current]` is total in Python because every
popped node has a g-score; the embedding uses `getD 0` for that lookup. -/
def relax (width height : ℤ) (blocked : List Node) (goal cur : Node)
    (st : AState) (d : Node) : AState :=
  let n : Node := step_dir cur d
  if in_bounds width height n && !(blocked.contains n) then
    let tentative := (st.gScore cur).getD 0 + 1
    let better :=
      match st.gScore n with
      | some gn => decide (tentative < gn)
      | none => true
    if better then
      let fn := tentative + heuristic n goal
      if st.openNodes.contains n then
        { st with
          cameFrom := Function.update st.cameFrom n (some cur)
          gScore := Function.update st.gScore n (some tentative)
          fScore := Function.update st.fScore n (some fn) }
      else
        { st with
          cameFrom := Function.update st.cameFrom n (some cur)
          gScore := Function.update st.gScore n (some tentative)
          fScore := Function.update st.fScore n (some fn)
          openH := (fn, st.counter + 1, n) :: st.openH
          openNodes := n :: st.openNodes
          counter := st.counter + 1 }
    else st
  else st

/-- The four-directional neighbour exploration of one popped node. -/
def expand (width height : ℤ) (blocked : List Node) (goal cur : Node)
    (st : AState) : AState :=
  dirs.foldl (relax width height blocked goal cur) st

/-- Path reconstruction: walk `came_from` back from the goal.  The chain is
finite (g-scores strictly decrease along it), so a fuel larger than any
chain length realises the Python `while current in came_from` loop. -/
def reconstruct (cf : Node → Option Node) : ℕ → Node → List Node
  | 0, cur => [cur]
  | fuel + 1, cur =>
    match cf cur with
    | none => [cur]
    | some p => cur :: reconstruct cf fuel p

/-- The main `while open_set:` loop of `find_path`.  One fuel unit per
iteration; both fuel exhaustion and an exhausted open set yield `none`
(the Python loop terminates because every push strictly decreases a g-score
bounded below, with at most `100 * 100` pushes on the 10×10 grid, so the
fuel used by `find_path` dominates every actual run). -/
def astar_loop (width height : ℤ) (blocked : List Node) (goal : Node) :
    ℕ → AState → Option (List Node)
  | 0, _ => none
  | fuel + 1, st =>
    match pop_min st.openH with
    | none => none
    | some ((_, _, cur), rest) =>
      let st' := { st with openH := rest, openNodes := st.openNodes.erase cur }
      if cur = goal then
        some ((reconstruct st'.cameFrom (width.toNat * height.toNat + 1) cur).reverse)
      else
        astar_loop width height blocked goal fuel (expand width height blocked goal cur st')

/-- The initial search state: `start` pushed with `f = 0 + h(start, goal)`
and counter 0. -/
def init_state (start goal : Node) : AState :=
  { openH := [(heuristic start goal, 0, start)]
    openNodes := [start]
    cameFrom := fun _ => none
    gScore := Function.update (fun _ => none) start (some 0)
    fScore := Function.update (fun _ => none) start (some (heuristic start goal))
    counter := 0 }

/-- `find_path` on the default 10×10 grid: trivial case for `start == goal`,
otherwise the A* loop. -/
def find_path (start goal : Node) (blocked : List Node) : Option (List Node) :=
  if start = goal then some [start]
  else astar_loop GRID_WIDTH GRID_HEIGHT blocked goal 40001 (init_state start goal)

/-! ### bot.py

`Bot` is embedded with continuous `ℚ` positions.  `math.hypot` enters as a
parameter `hyp` constrained by `HypotSpec` (the simulation only ever needs
its value on axis-aligned or zero vectors, where it is exact rational
arithmetic, plus positivity).  The other bots visible through `self.grid.bots`
are passed explicitly as a list of `OtherBot` views. -/

/-- Python 3 `round` on a rational: round half to even. -/
def round_half_even (q : ℚ) : ℤ :=
  let f := ⌊q⌋
  let r := q - (f : ℚ)
  if r < 1/2 then f
  else if 1/2 < r then f + 1
  else if Even f then f else f + 1

/-- The view of another bot that `Bot._compute_path_to` and `Bot.update`
read: its continuous position and its planned path. -/
structure OtherBot where
  pos : ℚ × ℚ
  target_path : List Node

/-- The non-`None` values of `Bot.current_task`. -/
inductive Task where
  | delivery
  | resort
deriving DecidableEq

/-- The mutable state of a `Bot`.  `source_cell` and `dest_cell` hold grid
cell indices (Python keeps references to the grid's cell objects). -/
structure Bot where
  pos : ℚ × ℚ
  goal_coords : Option Node
  target_path : List Node
  current_task : Option Task
  source_cell : Option ℕ
  dest_cell : Option ℕ
  target_item_code : Option String
  carrying_item : Option Item
  speed : ℚ

/-- The rounded grid position of a bot, as used for the blocked sets. -/
def rounded_pos (o : OtherBot) : Node :=
  (round_half_even o.pos.1, round_half_even o.pos.2)

/-- The `blocked` set of `Bot._compute_path_to`: the other bots' rounded
positions with the target coordinate discarded. -/
def loose_blocked (others : List OtherBot) (target : Node) : List Node :=
  (others.map rounded_pos).filter fun n => decide (n ≠ target)

/-- The `blocked_with_paths` set: `loose_blocked` plus every other bot's
immediate next waypoint.  Note that the waypoints are added after the target
was discarded, so the target can re-enter through a waypoint. -/
def dense_blocked (others : List OtherBot) (target : Node) : List Node :=
  loose_blocked others target ++ others.filterMap fun o => o.target_path.head?

/-- The two-phase search of `Bot._compute_path_to`: try the dense obstacle
set first, then fall back to the loose one. -/
def select_path (start target : Node) (others : List OtherBot) :
    Option (List Node) :=
  match find_path start target (dense_blocked others target) with
  | some p => some p
  | none => find_path start target (loose_blocked others target)

/-- `Bot._compute_path_to`: remember the goal, search, and strip the start
node from the result only when the bot sits exactly (within `1e-6`) at its
centre. -/
def compute_path_to (others : List OtherBot) (target : Node) (b : Bot) : Bot :=
  let start : Node := (round_half_even b.pos.1, round_half_even b.pos.2)
  let b' := { b with goal_coords := some target }
  match select_path start target others with
  | none => { b' with target_path := [] }
  | some p =>
    let at_center :=
      |b.pos.1 - (start.1 : ℚ)| < 1/1000000 ∧ |b.pos.2 - (start.2 : ℚ)| < 1/1000000
    if p.head? = some start ∧ at_center then
      { b' with target_path := p.tail }
    else
      { b' with target_path := p }

/-- Coordinates of the grid cell at index `i` (Python reads `.x`/`.y` off
the cell object itself; tracked cells always live in the grid). -/
def cell_coords (g : List Cell) (i : ℕ) : Node :=
  match g[i]? with
  | some c => (c.x, c.y)
  | none => (0, 0)

/-- `Bot.set_task_pickup`: unconditionally install a delivery task and plan
a path to the source cell. -/
def set_task_pickup (others : List OtherBot) (g : List Cell) (si di : ℕ)
    (item_code : Option String) (b : Bot) : Bot :=
  let b' := { b with
    current_task := some Task.delivery
    source_cell := some si
    dest_cell := some di
    target_item_code := item_code
    carrying_item := none }
  compute_path_to others (cell_coords g si) b'

/-- `Bot.set_task_resort`: unconditionally install a resort task and plan a
path to the cell to be resorted. -/
def set_task_resort (others : List OtherBot) (g : List Cell) (ci : ℕ)
    (b : Bot) : Bot :=
  let b' := { b with
    current_task := some Task.resort
    source_cell := some ci
    dest_cell := none
    carrying_item := none }
  compute_path_to others (cell_coords g ci) b'

/-- The targeted pickup scan: remove the first item whose code matches,
top-to-bottom, leaving the stack unchanged when no item matches. -/
def scan_pick (code : String) : List Item → Option Item × List Item
  | [] => (none, [])
  | it :: rest =>
    if it.code = code then (some it, rest)
    else
      let (r, rest') := scan_pick code rest
      (r, it :: rest')

/-- The second `if` of the delivery branch of `Bot._on_reach_destination`:
arrived while carrying with a destination set — push the carried item via
`add_item` (result ignored) and clear the task state. -/
def deliver_check (g : List Cell) (b : Bot) : List Cell × Bot :=
  match b.carrying_item, b.dest_cell with
  | some it, some di =>
    let g' := update_cell g di fun c => (c.add_item it).2
    (g', { b with
      carrying_item := none
      target_item_code := none
      current_task := none
      source_cell := none
      dest_cell := none
      goal_coords := none })
  | _, _ => (g, b)

/-- `Bot._on_reach_destination`: pickup, drop-off, or resort handling on
arrival at the end of the planned path. -/
def on_reach_destination (oracle : ℕ → ℕ) (others : List OtherBot)
    (g : List Cell) (b : Bot) : List Cell × Bot :=
  match b.current_task with
  | some Task.delivery =>
    match b.carrying_item, b.source_cell with
    | none, some si =>
      let (g1, b1) :=
        match g[si]? with
        | none => (g, b)
        | some cell =>
          let (picked, cell') :=
            match b.target_item_code with
            | some code =>
              let (r, its) := scan_pick code cell.items
              (r, { cell with items := its })
            | none => cell.remove_item
          let b' :=
            match picked with
            | some it => { b with carrying_item := some it }
            | none => b
          (g.set si cell', b')
      match b1.dest_cell with
      | some di => (g1, compute_path_to others (cell_coords g1 di) b1)
      | none => deliver_check g1 b1
    | _, _ => deliver_check g b
  | some Task.resort =>
    match b.source_cell with
    | none => (g, b)
    | some si =>
      let g' :=
        match g[si]? with
        | none => g
        | some _ => resort_cell oracle g si
      (g', { b with
        current_task := none
        source_cell := none
        dest_cell := none
        goal_coords := none })
  | none => (g, b)

/-- The acceleration ramp followed by the final-approach deceleration of
`Bot.update` (`one_left` is `len(self.target_path) == 1`). -/
def speed_after (speed : ℚ) (one_left : Bool) (dt : ℚ) : ℚ :=
  let s1 :=
    if speed < MAX_SPEED_CELLS_PER_SEC then
      let s := speed + (MAX_SPEED_CELLS_PER_SEC / ACCEL_TIME) * dt
      if MAX_SPEED_CELLS_PER_SEC < s then MAX_SPEED_CELLS_PER_SEC else s
    else speed
  if one_left then
    let s := s1 - (MAX_SPEED_CELLS_PER_SEC / DECEL_TIME) * dt
    if s < 1/2 then 1/2 else s
  else s1

/-- The body of `Bot.update` after the initial replanning block: collision
check against the next waypoint, kinematic integration, waypoint snapping
and arrival handling. -/
def update_core (hyp : ℚ → ℚ → ℚ) (oracle : ℕ → ℕ) (dt : ℚ)
    (others : List OtherBot) (g : List Cell) (b : Bot) : List Cell × Bot :=
  match b.target_path with
  | [] => (g, b)
  | (nx, ny) :: rest =>
    let occupied := others.map rounded_pos
    if occupied.contains (nx, ny) then
      match b.goal_coords with
      | some gc => (g, compute_path_to others gc b)
      | none => (g, b)
    else
      let dx : ℚ := (nx : ℚ) - b.pos.1
      let dy : ℚ := (ny : ℚ) - b.pos.2
      let distance := hyp dx dy
      let sp := speed_after b.speed rest.isEmpty dt
      let step := sp * dt
      if distance ≤ step ∧ distance ≠ 0 then
        let b' := { b with pos := ((nx : ℚ), (ny : ℚ)), target_path := rest, speed := sp }
        if rest.isEmpty then on_reach_destination oracle others g b' else (g, b')
      else
        let b' := { b with
          speed := sp
          pos :=
            if distance ≠ 0 then
              (b.pos.1 + dx / distance * step, b.pos.2 + dy / distance * step)
            else b.pos }
        (g, b')

/-- The initial replanning block of `Bot.update`: with an empty path but a
remembered goal, recompute the path. -/
def replanned (others : List OtherBot) (b : Bot) : Bot :=
  match b.target_path, b.goal_coords with
  | [], some gc => compute_path_to others gc b
  | _, _ => b

/-- `Bot.update`: replan if needed, give up for this tick when the path is
still empty, otherwise run the movement body. -/
def Bot.update (hyp : ℚ → ℚ → ℚ) (oracle : ℕ → ℕ) (dt : ℚ)
    (others : List OtherBot) (g : List Cell) (b : Bot) : List Cell × Bot :=
  let b1 := replanned others b
  if b1.target_path = [] then (g, b1)
  else update_core hyp oracle dt others g b1

/-- A sequence of update ticks, each with its own `dt` and view of the other
bots, threading the grid through. -/
def simulate (hyp : ℚ → ℚ → ℚ) (oracle : ℕ → ℕ)
    (ticks : List (ℚ × List OtherBot)) (s : List Cell × Bot) :
    List Cell × Bot :=
  ticks.foldl (fun s tk => Bot.update hyp oracle tk.1 tk.2 s.1 s.2) s

/-- The facts about `math.hypot` that the embedding relies on: nonnegative,
zero exactly on the zero vector, and exact on axis-aligned vectors. -/
structure HypotSpec (hyp : ℚ → ℚ → ℚ) : Prop where
  nonneg : ∀ dx dy, 0 ≤ hyp dx dy
  eq_zero : ∀ dx dy, hyp dx dy = 0 ↔ dx = 0 ∧ dy = 0
  axis_x : ∀ dx, hyp dx 0 = |dx|
  axis_y : ∀ dy, hyp 0 dy = |dy|

/-- A concrete function satisfying `HypotSpec`, used to instantiate
witnesses. -/
def hyp_taxi (dx dy : ℚ) : ℚ := |dx| + |dy|

/-- `q` lies on the closed segment from `p` to the waypoint `w`: the
remaining displacement to `w` is a scalar multiple `c ∈ [0, 1]` of the
original one.  `c = 0` means `q` is exactly `w`; this is the formal sense of
"never overshoots". -/
def toward_seg (p q : ℚ × ℚ) (w : Node) : Prop :=
  ∃ c : ℚ, 0 ≤ c ∧ c ≤ 1 ∧
    (w.1 : ℚ) - q.1 = c * ((w.1 : ℚ) - p.1) ∧
    (w.2 : ℚ) - q.2 = c * ((w.2 : ℚ) - p.2)

/-- The multiset of all items in the simulation: everything stacked in the
grid plus what the bot is carrying. -/
def total_items (g : List Cell) (b : Bot) : Multiset Item :=
  (↑(g.flatMap Cell.items) : Multiset Item) + ↑b.carrying_item.toList

/-- A sequence of `add_item` calls on one cell, keeping only the cell state
(the Python callers that stack items in a loop ignore the boolean). -/
def fold_add (c : Cell) (l : List Item) : Cell :=
  l.foldl (fun c it => (c.add_item it).2) c

/-- A storage cell at capacity (20 stacked items), used as a concrete
delivery destination. -/
def full_storage_cell : Cell :=
  ⟨5, 5, CellType.storage, List.replicate 20 ⟨"w", 1⟩⟩

/-- A bot that has just arrived at its delivery destination while carrying
`Item("X", 50)`, with the destination at grid index 0. -/
def carrying_bot : Bot :=
  { pos := (5, 5), goal_coords := some (5, 5), target_path := [],
    current_task := some Task.delivery, source_cell := none,
    dest_cell := some 0, target_item_code := none,
    carrying_item := some ⟨"X", 50⟩, speed := 1/2 }

/-- A bot whose next (and only) waypoint coincides exactly with its current
position. -/
def zero_dist_bot : Bot :=
  { pos := (0, 0), goal_coords := some (0, 0), target_path := [(0, 0)],
    current_task := none, source_cell := none, dest_cell := none,
    target_item_code := none, carrying_item := none, speed := 0 }

/-- A bot that has just arrived at the cell to be resorted (grid index 0). -/
def resort_bot : Bot :=
  { pos := (2, 2), goal_coords := some (2, 2), target_path := [],
    current_task := some Task.resort, source_cell := some 0,
    dest_cell := none, target_item_code := none, carrying_item := none,
    speed := 1/2 }

/-- The resort scenario of the spec: target cell with preferences
`[10, 90, 30]` top-to-bottom, and three empty storage cells as scratch
space (one per item, as the algorithm uses each scratch cell once). -/
def c1_grid : List Cell :=
  [⟨2, 2, CellType.storage, [⟨"a", 10⟩, ⟨"b", 90⟩, ⟨"c", 30⟩]⟩,
   ⟨3, 3, CellType.storage, []⟩,
   ⟨4, 4, CellType.storage, []⟩,
   ⟨5, 5, CellType.storage, []⟩]

/-- A scarcity scenario: the target storage cell is at capacity (20 items)
and the only other storage cell already holds 19 items, leaving a single
unit of spare scratch capacity. -/
def c8_grid : List Cell :=
  [⟨2, 2, CellType.storage, (List.range 20).map fun n => ⟨"t", (n : ℤ)⟩⟩,
   ⟨3, 3, CellType.storage, (List.range 19).map fun n => ⟨"s", (n : ℤ)⟩⟩]

/-- Total number of items stored anywhere in the grid. -/
def total_count (g : List Cell) : ℕ :=
  (g.flatMap Cell.items).length

/-- The round-trip scenario grid: the default 10×10 grid with `Item("X1",
preference 50)` stacked in the cell at `(0, 0)` (flattened index 0); the
destination cell `(9, 9)` (flattened index 99) is an empty storage cell. -/
def c2_grid : List Cell :=
  update_cell build_grid 0 fun c => { c with items := [⟨"X1", 50⟩] }

/-- The scenario bot before task assignment: idle at `(0, 0)`. -/
def c2_bot0 : Bot :=
  { pos := (0, 0), goal_coords := none, target_path := [],
    current_task := none, source_cell := none, dest_cell := none,
    target_item_code := none, carrying_item := none, speed := 0 }

/-- The scenario bot after `set_task_pickup(cell(0,0), cell(9,9))`. -/
def c2_bot : Bot :=
  set_task_pickup [] c2_grid 0 99 none c2_bot0

/-- The state `c2_bot` evaluates to: the path to the source was `[(0, 0)]`
and the start node was stripped because the bot sits at its centre, leaving
an empty path with a remembered goal. -/
def c2_ready : Bot :=
  { pos := (0, 0), goal_coords := some (0, 0), target_path := [],
    current_task := some Task.delivery, source_cell := some 0,
    dest_cell := some 99, target_item_code := none, carrying_item := none,
    speed := 0 }

/-- One other bot sitting at `(2, 0)` whose next planned waypoint is
`(1, 0)`. -/
def c4_others : List OtherBot :=
  [⟨((2 : ℚ), (0 : ℚ)), [(1, 0)]⟩]

/-! ### Specification-side notions for the A* correctness proof -/

/-- Two coordinates differ by exactly one unit along exactly one axis. -/
def adjacent (a b : Node) : Prop :=
  (a.1 - b.1).natAbs + (a.2 - b.2).natAbs = 1

/-- `n` lies on some shortest (Manhattan-monotone) route from `start` to
`goal`. -/
def onSeg (start goal n : Node) : Prop :=
  heuristic start n + heuristic n goal = heuristic start goal

/-- `n` has a g-score in the search state. -/
def assignedN (st : AState) (n : Node) : Prop :=
  (st.gScore n).isSome = true

/-- `n` has been popped: it has a g-score but is no longer open. -/
def poppedN (st : AState) (n : Node) : Prop :=
  assignedN st n ∧ n ∉ st.openNodes

/-- All in-bounds grid coordinates. -/
def grid_nodes (width height : ℤ) : List Node :=
  (List.range width.toNat).flatMap fun x =>
    (List.range height.toNat).map fun y => (((x : ℕ) : ℤ), ((y : ℕ) : ℤ))

/-- Number of in-bounds nodes without a g-score. -/
def unassigned_count (width height : ℤ) (st : AState) : ℕ :=
  (grid_nodes width height).countP fun n => (st.gScore n).isNone

/-- Termination measure of the A* loop: every iteration pops one heap entry
and each push assigns a fresh in-bounds node. -/
def astar_measure (width height : ℤ) (st : AState) : ℕ :=
  st.openH.length + 2 * unassigned_count width height st

/-- The A* loop invariant on an obstacle-free grid, before the goal has been
popped.  `layer` carries the frontier depth `d`: every monotone-route node
closer than `d` is popped, every popped node is a monotone-route node within
depth `d`, and every monotone-route heap entry is within depth `d + 1`. -/
structure AInv (width height : ℤ) (start goal : Node) (st : AState) : Prop where
  g_opt : ∀ n k, st.gScore n = some k → k = heuristic start n
  g_inb : ∀ n, assignedN st n → in_bounds width height n = true
  start_assigned : assignedN st start
  cf_start : st.cameFrom start = none
  cf_total : ∀ n, assignedN st n → n ≠ start → ∃ p, st.cameFrom n = some p
  cf_step : ∀ n p, st.cameFrom n = some p →
    assignedN st p ∧ (∃ d ∈ dirs, n = step_dir p d) ∧
    heuristic start n = heuristic start p + 1
  open_sub : ∀ n ∈ st.openNodes, assignedN st n
  open_nodup : st.openNodes.Nodup
  heap_nodes : ∀ e ∈ st.openH, e.2.2 ∈ st.openNodes
  heap_nodes_nodup : (st.openH.map fun e => e.2.2).Nodup
  open_heap : ∀ n ∈ st.openNodes, ∃ e ∈ st.openH, e.2.2 = n
  heap_f : ∀ e ∈ st.openH, e.1 = heuristic start e.2.2 + heuristic e.2.2 goal
  heap_ctr : ∀ e ∈ st.openH, e.2.1 ≤ st.counter
  heap_order : ∀ e₁ ∈ st.openH, ∀ e₂ ∈ st.openH,
    onSeg start goal e₁.2.2 → onSeg start goal e₂.2.2 →
    heuristic start e₁.2.2 < heuristic start e₂.2.2 → e₁.2.1 < e₂.2.1
  expanded : ∀ n, poppedN st n → ∀ d ∈ dirs,
    in_bounds width height (step_dir n d) = true → assignedN st (step_dir n d)
  goal_open : assignedN st goal → goal ∈ st.openNodes
  layer : ∃ d : ℕ, d ≤ heuristic start goal ∧
    (∀ r, onSeg start goal r → heuristic start r < d → poppedN st r) ∧
    (∀ n, poppedN st n → onSeg start goal n ∧ heuristic start n ≤ d) ∧
    (∀ e ∈ st.openH, onSeg start goal e.2.2 → heuristic start e.2.2 ≤ d + 1)

/-- The invariant holding between the pop of `cur` and the end of its
neighbour expansion: the layer data is anchored at `cur`'s depth, and
`expanded` is omitted (it is re-established for `cur` by the expansion
itself). -/
structure MidInv (width height : ℤ) (start goal cur : Node) (st : AState) : Prop where
  g_opt : ∀ n k, st.gScore n = some k → k = heuristic start n
  g_inb : ∀ n, assignedN st n → in_bounds width height n = true
  start_assigned : assignedN st start
  cf_start : st.cameFrom start = none
  cf_total : ∀ n, assignedN st n → n ≠ start → ∃ p, st.cameFrom n = some p
  cf_step : ∀ n p, st.cameFrom n = some p →
    assignedN st p ∧ (∃ d ∈ dirs, n = step_dir p d) ∧
    heuristic start n = heuristic start p + 1
  open_sub : ∀ n ∈ st.openNodes, assignedN st n
  open_nodup : st.openNodes.Nodup
  heap_nodes : ∀ e ∈ st.openH, e.2.2 ∈ st.openNodes
  heap_nodes_nodup : (st.openH.map fun e => e.2.2).Nodup
  open_heap : ∀ n ∈ st.openNodes, ∃ e ∈ st.openH, e.2.2 = n
  heap_f : ∀ e ∈ st.openH, e.1 = heuristic start e.2.2 + heuristic e.2.2 goal
  heap_ctr : ∀ e ∈ st.openH, e.2.1 ≤ st.counter
  heap_order : ∀ e₁ ∈ st.openH, ∀ e₂ ∈ st.openH,
    onSeg start goal e₁.2.2 → onSeg start goal e₂.2.2 →
    heuristic start e₁.2.2 < heuristic start e₂.2.2 → e₁.2.1 < e₂.2.1
  goal_open : assignedN st goal → goal ∈ st.openNodes
  cur_g : st.gScore cur = some (heuristic start cur)
  layer1 : ∀ r, onSeg start goal r → heuristic start r < heuristic start cur →
    poppedN st r
  layer2 : ∀ n, poppedN st n → onSeg start goal n ∧
    heuristic start n ≤ heuristic start cur
  layer5 : ∀ e ∈ st.openH, onSeg start goal e.2.2 →
    heuristic start e.2.2 ≤ heuristic start cur + 1

/-! ## Theorems -/

theorem add_item_type (c : Cell) (it : Item) : ((c.add_item it).2).type = c.type := by
  unfold Cell.add_item
  split <;> rfl

theorem add_item_length_le (c : Cell) (it : Item)
    (h : c.type = CellType.storage) (hl : c.items.length ≤ MAX_ITEMS_PER_CELL) :
    ((c.add_item it).2).items.length ≤ MAX_ITEMS_PER_CELL := by
  unfold Cell.add_item
  split
  · exact hl
  · next hc =>
    simp only [List.length_cons]
    rcases Nat.lt_or_ge c.items.length MAX_ITEMS_PER_CELL with hlt | hge
    · exact hlt
    · exact absurd ⟨h, hge⟩ hc

/-- C6: for every sequence of `add_item` calls on a storage cell (starting
within capacity), `len(items) ≤ MAX_ITEMS_PER_CELL` holds after every call;
an `add_item` on a storage cell at capacity returns `False` and leaves the
stack unchanged; `add_item` on inbound and outbound cells always succeeds,
pushing on top regardless of stack height. -/
theorem claim_C6 :
    (∀ (c : Cell) (l : List Item),
        c.type = CellType.storage → c.items.length ≤ MAX_ITEMS_PER_CELL →
        (fold_add c l).items.length ≤ MAX_ITEMS_PER_CELL) ∧
    (∀ (c : Cell) (it : Item),
        c.type = CellType.storage → MAX_ITEMS_PER_CELL ≤ c.items.length →
        c.add_item it = (false, c)) ∧
    (∀ (c : Cell) (it : Item),
        c.type = CellType.inbound ∨ c.type = CellType.outbound →
        c.add_item it = (true, { c with items := it :: c.items })) := by
  refine ⟨?_, ?_, ?_⟩
  · intro c l
    induction l generalizing c with
    | nil => intro _ hl; exact hl
    | cons it rest ih =>
      intro h hl
      have hty := add_item_type c it
      exact ih _ (hty.trans h) (add_item_length_le c it h hl)
  · intro c it h hl
    unfold Cell.add_item
    rw [if_pos ⟨h, hl⟩]
  · intro c it h
    unfold Cell.add_item
    rw [if_neg]
    rintro ⟨hs, -⟩
    rcases h with h | h <;> rw [h] at hs <;> exact CellType.noConfusion hs

/-- Witness for C6 at concrete cells: a full storage cell of 20 items and an
inbound cell. -/
theorem claim_C6_witness :
    (fold_add ⟨0, 0, CellType.storage, List.replicate 20 ⟨"w", 1⟩⟩
        [⟨"v", 2⟩, ⟨"u", 3⟩]).items.length ≤ MAX_ITEMS_PER_CELL ∧
    Cell.add_item ⟨0, 0, CellType.storage, List.replicate 20 ⟨"w", 1⟩⟩ ⟨"v", 2⟩ =
      (false, ⟨0, 0, CellType.storage, List.replicate 20 ⟨"w", 1⟩⟩) ∧
    Cell.add_item ⟨0, 0, CellType.inbound, List.replicate 25 ⟨"w", 1⟩⟩ ⟨"v", 2⟩ =
      (true, ⟨0, 0, CellType.inbound, ⟨"v", 2⟩ :: List.replicate 25 ⟨"w", 1⟩⟩) :=
  ⟨claim_C6.1 _ _ rfl (by decide),
   claim_C6.2.1 _ _ rfl (by decide),
   claim_C6.2.2 _ _ (Or.inl rfl)⟩

theorem compute_path_to_fields (o : List OtherBot) (t : Node) (b : Bot) :
    (compute_path_to o t b).pos = b.pos ∧
    (compute_path_to o t b).speed = b.speed ∧
    (compute_path_to o t b).carrying_item = b.carrying_item ∧
    (compute_path_to o t b).current_task = b.current_task ∧
    (compute_path_to o t b).source_cell = b.source_cell ∧
    (compute_path_to o t b).dest_cell = b.dest_cell ∧
    (compute_path_to o t b).target_item_code = b.target_item_code ∧
    (compute_path_to o t b).goal_coords = some t := by
  unfold compute_path_to
  cases h : select_path (round_half_even b.pos.1, round_half_even b.pos.2) t o with
  | none => simp only [h]; simp
  | some p =>
    simp only [h]
    split <;> simp

theorem total_items_add_ne (g : List Cell) (b b' : Bot) (it : Item)
    (h : total_items g b' + {it} = total_items g b) :
    total_items g b' ≠ total_items g b := by
  intro he
  rw [he] at h
  have := congrArg Multiset.card h
  simp at this

/-- C10: calling `set_task_pickup` or `set_task_resort` on a bot whose
`carrying_item` is non-null overwrites the task state and nulls
`carrying_item` without depositing the carried item anywhere, so the global
multiset of items shrinks by exactly that item and is not preserved. -/
theorem claim_C10 (others : List OtherBot) (g : List Cell) (si di ci : ℕ)
    (code : Option String) (b : Bot) (it : Item)
    (h : b.carrying_item = some it) :
    (set_task_pickup others g si di code b).carrying_item = none ∧
    (set_task_pickup others g si di code b).current_task = some Task.delivery ∧
    total_items g (set_task_pickup others g si di code b) + {it} = total_items g b ∧
    total_items g (set_task_pickup others g si di code b) ≠ total_items g b ∧
    (set_task_resort others g ci b).carrying_item = none ∧
    (set_task_resort others g ci b).current_task = some Task.resort ∧
    total_items g (set_task_resort others g ci b) + {it} = total_items g b ∧
    total_items g (set_task_resort others g ci b) ≠ total_items g b := by
  have hp := compute_path_to_fields others (cell_coords g si) { b with
    current_task := some Task.delivery
    source_cell := some si
    dest_cell := some di
    target_item_code := code
    carrying_item := none }
  have hr := compute_path_to_fields others (cell_coords g ci) { b with
    current_task := some Task.resort
    source_cell := some ci
    dest_cell := none
    carrying_item := none }
  have hpc : (set_task_pickup others g si di code b).carrying_item = none := hp.2.2.1
  have hrc : (set_task_resort others g ci b).carrying_item = none := hr.2.2.1
  have hpe : total_items g (set_task_pickup others g si di code b) + {it} = total_items g b := by
    unfold total_items
    rw [hpc, h]
    simp [add_comm]
  have hre : total_items g (set_task_resort others g ci b) + {it} = total_items g b := by
    unfold total_items
    rw [hrc, h]
    simp [add_comm]
  exact ⟨hpc, hp.2.2.2.1, hpe, total_items_add_ne g b _ it hpe,
    hrc, hr.2.2.2.1, hre, total_items_add_ne g b _ it hre⟩

/-- Witness for C10: a concrete bot carrying an item, reassigned on an empty
grid. -/
theorem claim_C10_witness :
    ({ pos := (0, 0), goal_coords := none, target_path := [],
       current_task := some Task.delivery, source_cell := none,
       dest_cell := none, target_item_code := none,
       carrying_item := some ⟨"X", 7⟩, speed := 0 } : Bot).carrying_item =
        some ⟨"X", 7⟩ ∧
    (set_task_pickup [] [] 0 1 none
      { pos := (0, 0), goal_coords := none, target_path := [],
        current_task := some Task.delivery, source_cell := none,
        dest_cell := none, target_item_code := none,
        carrying_item := some ⟨"X", 7⟩, speed := 0 }).carrying_item = none :=
  ⟨rfl,
   (claim_C10 [] [] 0 1 0 none
      { pos := (0, 0), goal_coords := none, target_path := [],
        current_task := some Task.delivery, source_cell := none,
        dest_cell := none, target_item_code := none,
        carrying_item := some ⟨"X", 7⟩, speed := 0 } ⟨"X", 7⟩ rfl).1⟩

theorem list_set_self {α : Type} (g : List α) (i : ℕ) (c : α)
    (h : g[i]? = some c) : g.set i c = g := by
  induction g generalizing i with
  | nil => simp at h
  | cons a rest ih =>
    cases i with
    | zero =>
      simp at h
      simp [List.set, h]
    | succ j =>
      simp at h
      simp [List.set, ih j h]

/-- C5 counterexample: with the destination storage cell at capacity, the
carried item is not pushed onto the destination stack — it vanishes from the
simulation — refuting the claim that the push happens "even when the
destination storage cell is at capacity". -/
theorem claim_C5_counterexample :
    (on_reach_destination (fun _ => 0) [] [full_storage_cell] carrying_bot).1 =
      [full_storage_cell] ∧
    (⟨"X", 50⟩ : Item) ∉
      ((on_reach_destination (fun _ => 0) [] [full_storage_cell] carrying_bot).1.flatMap
        Cell.items) ∧
    (on_reach_destination (fun _ => 0) [] [full_storage_cell] carrying_bot).2.carrying_item =
      none := by
  decide

/-- C5 (amended): on delivery arrival while carrying with a destination set,
the bot invokes `add_item` unconditionally and ignores its result — the item
is pushed on top unless the destination is a storage cell at capacity, in
which case the grid is left unchanged and the item is dropped — and in both
cases task, carrying_item, target_item_code, source_cell, dest_cell and
goal_coords are cleared, returning the bot to idle. -/
theorem claim_C5 (oracle : ℕ → ℕ) (others : List OtherBot) (g : List Cell)
    (b : Bot) (it : Item) (di : ℕ)
    (htask : b.current_task = some Task.delivery)
    (hcarry : b.carrying_item = some it)
    (hdest : b.dest_cell = some di)
    (hdi : di < g.length) :
    (on_reach_destination oracle others g b).2.current_task = none ∧
    (on_reach_destination oracle others g b).2.carrying_item = none ∧
    (on_reach_destination oracle others g b).2.target_item_code = none ∧
    (on_reach_destination oracle others g b).2.source_cell = none ∧
    (on_reach_destination oracle others g b).2.dest_cell = none ∧
    (on_reach_destination oracle others g b).2.goal_coords = none ∧
    (on_reach_destination oracle others g b).1 =
      (if g[di].type = CellType.storage ∧
          MAX_ITEMS_PER_CELL ≤ g[di].items.length
       then g
       else g.set di
         { g[di] with items := it :: g[di].items }) := by
  have hg : g[di]? = some g[di] := by
    simp [List.getElem?_eq_getElem hdi]
  have hself := list_set_self g di g[di] hg
  by_cases hfull : g[di].type = CellType.storage ∧
      MAX_ITEMS_PER_CELL ≤ g[di].items.length
  all_goals cases hsc : b.source_cell
  all_goals
    simp [on_reach_destination, deliver_check, update_cell, Cell.add_item,
      htask, hcarry, hdest, hsc, hg, hfull, hself]

/-- Witness for C5 at a concrete non-full destination: the push succeeds and
the state is cleared. -/
theorem claim_C5_witness :
    (on_reach_destination (fun _ => 0) [] [⟨1, 1, CellType.storage, []⟩]
        carrying_bot).2.current_task = none ∧
    (on_reach_destination (fun _ => 0) [] [⟨1, 1, CellType.storage, []⟩]
        carrying_bot).1 =
      (if (([⟨1, 1, CellType.storage, []⟩] : List Cell).get ⟨0, by decide⟩).type =
            CellType.storage ∧
          MAX_ITEMS_PER_CELL ≤
            (([⟨1, 1, CellType.storage, []⟩] : List Cell).get ⟨0, by decide⟩).items.length
       then [⟨1, 1, CellType.storage, []⟩]
       else ([⟨1, 1, CellType.storage, []⟩] : List Cell).set 0
         { ([⟨1, 1, CellType.storage, []⟩] : List Cell).get ⟨0, by decide⟩ with
            items := ⟨"X", 50⟩ ::
              (([⟨1, 1, CellType.storage, []⟩] : List Cell).get ⟨0, by decide⟩).items }) :=
  ⟨(claim_C5 (fun _ => 0) [] [⟨1, 1, CellType.storage, []⟩] carrying_bot
      ⟨"X", 50⟩ 0 rfl rfl rfl (by decide)).1,
   (claim_C5 (fun _ => 0) [] [⟨1, 1, CellType.storage, []⟩] carrying_bot
      ⟨"X", 50⟩ 0 rfl rfl rfl (by decide)).2.2.2.2.2.2⟩

theorem hyp_taxi_spec : HypotSpec hyp_taxi := by
  constructor
  · intro dx dy
    have := abs_nonneg dx
    have := abs_nonneg dy
    unfold hyp_taxi
    linarith
  · intro dx dy
    unfold hyp_taxi
    constructor
    · intro h
      have hx := abs_nonneg dx
      have hy := abs_nonneg dy
      constructor
      · exact abs_eq_zero.mp (le_antisymm (by linarith) hx)
      · exact abs_eq_zero.mp (le_antisymm (by linarith) hy)
    · rintro ⟨hx, hy⟩
      simp [hx, hy]
  · intro dx
    simp [hyp_taxi]
  · intro dy
    simp [hyp_taxi]

theorem update_zero_dist (hyp : ℚ → ℚ → ℚ) (H : HypotSpec hyp) (oracle : ℕ → ℕ)
    (dt : ℚ) (others : List OtherBot) (g : List Cell) (b : Bot)
    (nx ny : ℤ) (rest : List Node)
    (hpath : b.target_path = (nx, ny) :: rest)
    (hpos : b.pos = ((nx : ℚ), (ny : ℚ)))
    (hocc : (nx, ny) ∉ others.map rounded_pos) :
    Bot.update hyp oracle dt others g b =
      (g, { b with speed := speed_after b.speed rest.isEmpty dt }) := by
  have hrepl : replanned others b = b := by
    unfold replanned
    rw [hpath]
  have hne : b.target_path ≠ [] := by rw [hpath]; simp
  have hcontains : (others.map rounded_pos).contains (nx, ny) = false := by
    simpa using hocc
  have hdx : (nx : ℚ) - b.pos.1 = 0 := by rw [hpos]; ring
  have hdy : (ny : ℚ) - b.pos.2 = 0 := by rw [hpos]; ring
  have hdist : hyp ((nx : ℚ) - b.pos.1) ((ny : ℚ) - b.pos.2) = 0 := by
    rw [hdx, hdy]
    exact (H.eq_zero 0 0).mpr ⟨rfl, rfl⟩
  unfold Bot.update
  rw [hrepl, if_neg hne]
  unfold update_core
  rw [hpath]
  simp only [hcontains, Bool.false_eq_true, if_false, hdist]
  rw [if_neg (by simp)]
  simp

/-- C7 counterexample: a tick on a bot whose single waypoint is at zero
distance leaves the waypoint on the path (it is not popped), performs no
movement and does not invoke arrival handling — refuting the claim that
zero-distance waypoints "still pop" and trigger arrival. -/
theorem claim_C7_counterexample :
    (Bot.update hyp_taxi (fun _ => 0) 1 [] [] zero_dist_bot).2.target_path =
      [(0, 0)] ∧
    (Bot.update hyp_taxi (fun _ => 0) 1 [] [] zero_dist_bot).2.pos = (0, 0) ∧
    (Bot.update hyp_taxi (fun _ => 0) 1 [] [] zero_dist_bot).2.current_task =
      none ∧
    (Bot.update hyp_taxi (fun _ => 0) 1 [] [] zero_dist_bot).1 = [] := by
  rw [update_zero_dist hyp_taxi hyp_taxi_spec (fun _ => 0) 1 [] [] zero_dist_bot
    0 0 [] rfl (by simp [zero_dist_bot]) (by simp)]
  exact ⟨rfl, rfl, rfl, rfl⟩

/-- C7 (amended): when the next waypoint is at zero distance from the bot's
position (and not occupied by another bot), the tick performs no movement
and does **not** pop the waypoint: path, position, task and grid are left
unchanged and arrival handling is not invoked; only the speed field is
updated by the acceleration/deceleration ramp. -/
theorem claim_C7 (hyp : ℚ → ℚ → ℚ) (H : HypotSpec hyp) (oracle : ℕ → ℕ)
    (dt : ℚ) (others : List OtherBot) (g : List Cell) (b : Bot)
    (nx ny : ℤ) (rest : List Node)
    (hpath : b.target_path = (nx, ny) :: rest)
    (hpos : b.pos = ((nx : ℚ), (ny : ℚ)))
    (hocc : (nx, ny) ∉ others.map rounded_pos) :
    Bot.update hyp oracle dt others g b =
      (g, { b with speed := speed_after b.speed rest.isEmpty dt }) :=
  update_zero_dist hyp H oracle dt others g b nx ny rest hpath hpos hocc

/-- Witness for C7 at the concrete zero-distance bot. -/
theorem claim_C7_witness :
    Bot.update hyp_taxi (fun _ => 0) 1 [] [] zero_dist_bot =
      ([], { zero_dist_bot with
              speed := speed_after zero_dist_bot.speed ([] : List Node).isEmpty 1 }) :=
  claim_C7 hyp_taxi hyp_taxi_spec (fun _ => 0) 1 [] [] zero_dist_bot 0 0 []
    rfl (by simp [zero_dist_bot]) (by simp)

/-- C1: evaluating the resort arrival on the spec's own scenario (target
stack `[10, 90, 30]` top-to-bottom with ample empty scratch cells) shows the
bug: the algorithm pushes the descending-sorted items back with `add_item`
(which inserts at the top), so the final stack is `[10, 30, 90]` —
*ascending* by preference from the top — and `needs_resort()` is still true
afterward, contradicting the claimed non-increasing order and false
`needs_resort()`.  The multiset of items is preserved and the scratch cells
are left empty, but the ordering goal fails. -/
theorem claim_C1 :
    (on_reach_destination (fun _ => 0) [] c1_grid resort_bot).1 =
      [⟨2, 2, CellType.storage, [⟨"a", 10⟩, ⟨"c", 30⟩, ⟨"b", 90⟩]⟩,
       ⟨3, 3, CellType.storage, []⟩,
       ⟨4, 4, CellType.storage, []⟩,
       ⟨5, 5, CellType.storage, []⟩] ∧
    Cell.needs_resort
      (((on_reach_destination (fun _ => 0) [] c1_grid resort_bot).1).getD 0 default) =
      true ∧
    (on_reach_destination (fun _ => 0) [] c1_grid resort_bot).2.current_task = none := by
  decide

/-- C8: evaluating the resort arrival on a scarcity scenario where the only
scratch cell has spare capacity but is not empty shows item loss: the
scratch cell's 19 pre-existing items are absorbed into the push-back
sequence, the target cell overflows its capacity during push-back, the
failed `add_item` results are ignored, and the total item count over target
plus scratch drops from 39 to 20 — 19 items are destroyed, contradicting
the claimed conservation. -/
theorem claim_C8 :
    total_count c8_grid = 39 ∧
    total_count (on_reach_destination (fun _ => 0) [] c8_grid resort_bot).1 = 20 ∧
    (on_reach_destination (fun _ => 0) [] c8_grid resort_bot).2.current_task = none := by
  decide

theorem find_path_self (s : Node) (blocked : List Node) :
    find_path s s blocked = some [s] := by
  unfold find_path
  rw [if_pos rfl]

theorem select_path_self (s : Node) (others : List OtherBot) :
    select_path s s others = some [s] := by
  unfold select_path
  rw [find_path_self]

theorem rhe_intCast (n : ℤ) : round_half_even ((n : ℚ)) = n := by
  unfold round_half_even
  rw [Int.floor_intCast]
  norm_num

theorem rhe_zero : round_half_even 0 = 0 := by
  have h := rhe_intCast 0
  simpa using h

theorem compute_path_to_origin (b : Bot) (hpos : b.pos = (0, 0)) :
    compute_path_to [] (0, 0) b =
      { b with goal_coords := some ((0 : ℤ), (0 : ℤ)), target_path := [] } := by
  unfold compute_path_to
  rw [hpos]
  simp only [rhe_zero]
  rw [select_path_self]
  dsimp only
  rw [if_pos ⟨rfl, by norm_num, by norm_num⟩]
  rfl

theorem c2_bot_eval : c2_bot = c2_ready := by
  unfold c2_bot set_task_pickup
  have hc : cell_coords c2_grid 0 = ((0 : ℤ), (0 : ℤ)) := by decide
  rw [hc]
  rw [compute_path_to_origin _ rfl]
  rfl

theorem c2_fixpoint (hyp : ℚ → ℚ → ℚ) (oracle : ℕ → ℕ) (dt : ℚ) :
    Bot.update hyp oracle dt [] c2_grid c2_ready = (c2_grid, c2_ready) := by
  have h1 : replanned [] c2_ready = c2_ready := by
    have h2 := compute_path_to_origin c2_ready rfl
    exact (show replanned [] c2_ready = compute_path_to [] (0, 0) c2_ready from rfl).trans
      (h2.trans rfl)
  simp only [Bot.update]
  rw [h1]
  rw [if_pos (show c2_ready.target_path = [] from rfl)]

/-- C2: in the spec's round-trip scenario (bot at `(0, 0)`, delivery
assigned from cell `(0, 0)` holding `Item("X1")` to the empty storage cell
`(9, 9)`), the path to the source strips down to the empty path, and every
subsequent `update` tick replans the same empty path and returns without
ever invoking arrival handling: after *any* number of ticks the state is
unchanged — the source still holds the item, the destination is still
empty, the bot still has the delivery task and carries nothing — so the
claimed completed delivery never occurs. -/
theorem claim_C2 (n : ℕ) (hyp : ℚ → ℚ → ℚ) (oracle : ℕ → ℕ) (dt : ℚ) :
    (fun s : List Cell × Bot => Bot.update hyp oracle dt [] s.1 s.2)^[n]
        (c2_grid, c2_bot) = (c2_grid, c2_bot) ∧
    (c2_grid.getD 0 default).items = [⟨"X1", 50⟩] ∧
    (c2_grid.getD 99 default).items = [] ∧
    c2_bot.current_task = some Task.delivery ∧
    c2_bot.carrying_item = none ∧
    c2_bot.target_path = [] := by
  rw [c2_bot_eval]
  refine ⟨Function.iterate_fixed (c2_fixpoint hyp oracle dt) n, ?_, ?_, rfl, rfl, rfl⟩
  · decide
  · decide

theorem compute_path_to_pos (o : List OtherBot) (t : Node) (b : Bot) :
    (compute_path_to o t b).pos = b.pos :=
  (compute_path_to_fields o t b).1

theorem compute_path_to_speed (o : List OtherBot) (t : Node) (b : Bot) :
    (compute_path_to o t b).speed = b.speed :=
  (compute_path_to_fields o t b).2.1

theorem replanned_pos (o : List OtherBot) (b : Bot) :
    (replanned o b).pos = b.pos := by
  unfold replanned
  split
  · exact compute_path_to_pos _ _ _
  · rfl

theorem replanned_speed (o : List OtherBot) (b : Bot) :
    (replanned o b).speed = b.speed := by
  unfold replanned
  split
  · exact compute_path_to_speed _ _ _
  · rfl

theorem deliver_check_speed_pos (g : List Cell) (b : Bot) :
    (deliver_check g b).2.speed = b.speed ∧ (deliver_check g b).2.pos = b.pos := by
  unfold deliver_check
  split <;> exact ⟨rfl, rfl⟩

theorem on_reach_speed_pos (oracle : ℕ → ℕ) (others : List OtherBot)
    (g : List Cell) (b : Bot) :
    (on_reach_destination oracle others g b).2.speed = b.speed ∧
    (on_reach_destination oracle others g b).2.pos = b.pos := by
  obtain ⟨pos, goal, path, task, src, dst, code, carry, speed⟩ := b
  unfold on_reach_destination
  cases task with
  | none => exact ⟨rfl, rfl⟩
  | some t =>
    cases t with
    | resort =>
      cases src with
      | none => exact ⟨rfl, rfl⟩
      | some si => exact ⟨rfl, rfl⟩
    | delivery =>
      cases carry with
      | some it =>
        cases src <;> exact deliver_check_speed_pos _ _
      | none =>
        cases src with
        | none => exact deliver_check_speed_pos _ _
        | some si =>
          dsimp only
          cases hgi : g[si]? with
          | none =>
            dsimp only
            cases dst with
            | some di => exact ⟨compute_path_to_speed _ _ _, compute_path_to_pos _ _ _⟩
            | none => exact deliver_check_speed_pos _ _
          | some cell =>
            dsimp only
            cases code with
            | none =>
              cases hrm : (cell.remove_item).1 with
              | none =>
                cases dst with
                | some di =>
                  exact ⟨compute_path_to_speed _ _ _, compute_path_to_pos _ _ _⟩
                | none => exact deliver_check_speed_pos _ _
              | some picked =>
                cases dst with
                | some di =>
                  exact ⟨compute_path_to_speed _ _ _, compute_path_to_pos _ _ _⟩
                | none => exact deliver_check_speed_pos _ _
            | some cc =>
              cases hsp : (scan_pick cc cell.items).1 with
              | none =>
                cases dst with
                | some di =>
                  exact ⟨compute_path_to_speed _ _ _, compute_path_to_pos _ _ _⟩
                | none => exact deliver_check_speed_pos _ _
              | some picked =>
                cases dst with
                | some di =>
                  exact ⟨compute_path_to_speed _ _ _, compute_path_to_pos _ _ _⟩
                | none => exact deliver_check_speed_pos _ _

theorem speed_after_bounds (speed : ℚ) (ol : Bool) (dt : ℚ)
    (hdt : 0 ≤ dt) (h0 : 0 ≤ speed) (h2 : speed ≤ MAX_SPEED_CELLS_PER_SEC) :
    0 ≤ speed_after speed ol dt ∧
    speed_after speed ol dt ≤ MAX_SPEED_CELLS_PER_SEC := by
  have hacc : (0 : ℚ) ≤ MAX_SPEED_CELLS_PER_SEC / ACCEL_TIME * dt := by
    apply mul_nonneg _ hdt
    norm_num [MAX_SPEED_CELLS_PER_SEC, ACCEL_TIME]
  have hdec : (0 : ℚ) ≤ MAX_SPEED_CELLS_PER_SEC / DECEL_TIME * dt := by
    apply mul_nonneg _ hdt
    norm_num [MAX_SPEED_CELLS_PER_SEC, DECEL_TIME]
  have hhalfM : (1 : ℚ)/2 ≤ MAX_SPEED_CELLS_PER_SEC := by
    norm_num [MAX_SPEED_CELLS_PER_SEC]
  unfold speed_after
  dsimp only
  split_ifs <;> constructor <;> linarith

theorem update_speed_bounds (hyp : ℚ → ℚ → ℚ) (oracle : ℕ → ℕ) (dt : ℚ)
    (others : List OtherBot) (g : List Cell) (b : Bot)
    (hdt : 0 ≤ dt) (h0 : 0 ≤ b.speed) (h2 : b.speed ≤ MAX_SPEED_CELLS_PER_SEC) :
    0 ≤ (Bot.update hyp oracle dt others g b).2.speed ∧
    (Bot.update hyp oracle dt others g b).2.speed ≤ MAX_SPEED_CELLS_PER_SEC := by
  unfold Bot.update
  dsimp only
  have hrs := replanned_speed others b
  have h0' : 0 ≤ (replanned others b).speed := by rw [hrs]; exact h0
  have h2' : (replanned others b).speed ≤ MAX_SPEED_CELLS_PER_SEC := by
    rw [hrs]; exact h2
  by_cases hpath : (replanned others b).target_path = []
  · rw [if_pos hpath]
    exact ⟨h0', h2'⟩
  · rw [if_neg hpath]
    cases hp : (replanned others b).target_path with
    | nil => exact absurd hp hpath
    | cons head rest =>
      obtain ⟨nx, ny⟩ := head
      unfold update_core
      rw [hp]
      dsimp only
      by_cases hocc : ((others.map rounded_pos).contains (nx, ny) : Bool)
      · rw [if_pos hocc]
        cases hg : (replanned others b).goal_coords with
        | some gc =>
          dsimp only
          constructor
          · rw [compute_path_to_speed]; exact h0'
          · rw [compute_path_to_speed]; exact h2'
        | none => exact ⟨h0', h2'⟩
      · rw [if_neg hocc]
        have hsp := speed_after_bounds (replanned others b).speed rest.isEmpty dt
          hdt h0' h2'
        by_cases hsnap :
            hyp ((nx : ℚ) - (replanned others b).pos.1)
                ((ny : ℚ) - (replanned others b).pos.2) ≤
              speed_after (replanned others b).speed rest.isEmpty dt * dt ∧
            hyp ((nx : ℚ) - (replanned others b).pos.1)
                ((ny : ℚ) - (replanned others b).pos.2) ≠ 0
        · rw [if_pos hsnap]
          by_cases hrest : (rest.isEmpty : Bool)
          · rw [if_pos hrest]
            have hor := on_reach_speed_pos oracle others g
              { replanned others b with
                  pos := ((nx : ℚ), (ny : ℚ)), target_path := rest,
                  speed := speed_after (replanned others b).speed rest.isEmpty dt }
            rw [hor.1]
            exact hsp
          · rw [if_neg hrest]
            exact hsp
        · rw [if_neg hsnap]
          exact hsp

theorem update_pos_empty (hyp : ℚ → ℚ → ℚ) (oracle : ℕ → ℕ) (dt : ℚ)
    (others : List OtherBot) (g : List Cell) (b : Bot)
    (hpath : (replanned others b).target_path = []) :
    (Bot.update hyp oracle dt others g b).2.pos = b.pos := by
  unfold Bot.update
  dsimp only
  rw [if_pos hpath]
  exact replanned_pos others b

theorem update_pos_occupied (hyp : ℚ → ℚ → ℚ) (oracle : ℕ → ℕ) (dt : ℚ)
    (others : List OtherBot) (g : List Cell) (b : Bot) (nx ny : ℤ)
    (rest : List Node)
    (hp : (replanned others b).target_path = (nx, ny) :: rest)
    (hocc : (nx, ny) ∈ others.map rounded_pos) :
    (Bot.update hyp oracle dt others g b).2.pos = b.pos := by
  unfold Bot.update
  dsimp only
  rw [if_neg (by rw [hp]; simp)]
  unfold update_core
  rw [hp]
  dsimp only
  rw [if_pos (by simpa using hocc)]
  cases hg : (replanned others b).goal_coords with
  | some gc =>
    dsimp only
    rw [compute_path_to_pos]
    exact replanned_pos others b
  | none => exact replanned_pos others b

theorem update_move (hyp : ℚ → ℚ → ℚ) (H : HypotSpec hyp) (oracle : ℕ → ℕ)
    (dt : ℚ) (others : List OtherBot) (g : List Cell) (b : Bot)
    (hdt : 0 ≤ dt) (h0 : 0 ≤ b.speed) (h2 : b.speed ≤ MAX_SPEED_CELLS_PER_SEC)
    (nx ny : ℤ) (rest : List Node)
    (hp : (replanned others b).target_path = (nx, ny) :: rest)
    (hocc : (nx, ny) ∉ others.map rounded_pos) :
    toward_seg b.pos (Bot.update hyp oracle dt others g b).2.pos (nx, ny) ∧
    ((hyp ((nx : ℚ) - b.pos.1) ((ny : ℚ) - b.pos.2) ≤
        speed_after b.speed rest.isEmpty dt * dt ∧
      hyp ((nx : ℚ) - b.pos.1) ((ny : ℚ) - b.pos.2) ≠ 0) →
      (Bot.update hyp oracle dt others g b).2.pos = ((nx : ℚ), (ny : ℚ))) := by
  have hrp := replanned_pos others b
  have hrs := replanned_speed others b
  have h0' : 0 ≤ (replanned others b).speed := by rw [hrs]; exact h0
  have h2' : (replanned others b).speed ≤ MAX_SPEED_CELLS_PER_SEC := by
    rw [hrs]; exact h2
  have hspnn : 0 ≤ speed_after b.speed rest.isEmpty dt :=
    (speed_after_bounds b.speed rest.isEmpty dt hdt h0 h2).1
  have hres : Bot.update hyp oracle dt others g b =
      update_core hyp oracle dt others g (replanned others b) := by
    unfold Bot.update
    dsimp only
    rw [if_neg (by rw [hp]; simp)]
  rw [hres]
  unfold update_core
  rw [hp]
  dsimp only
  rw [if_neg (by simpa using hocc)]
  rw [hrp, hrs]
  by_cases hsnap :
      hyp ((nx : ℚ) - b.pos.1) ((ny : ℚ) - b.pos.2) ≤
        speed_after b.speed rest.isEmpty dt * dt ∧
      hyp ((nx : ℚ) - b.pos.1) ((ny : ℚ) - b.pos.2) ≠ 0
  · rw [if_pos hsnap]
    have hpos2 :
        (if (rest.isEmpty : Bool) then
            on_reach_destination oracle others g
              { replanned others b with
                  pos := ((nx : ℚ), (ny : ℚ)), target_path := rest,
                  speed := speed_after b.speed rest.isEmpty dt }
          else
            (g, { replanned others b with
                    pos := ((nx : ℚ), (ny : ℚ)), target_path := rest,
                    speed := speed_after b.speed rest.isEmpty dt })).2.pos =
          ((nx : ℚ), (ny : ℚ)) := by
      by_cases hrest : (rest.isEmpty : Bool)
      · rw [if_pos hrest]
        exact (on_reach_speed_pos oracle others g _).2
      · rw [if_neg hrest]
    constructor
    · refine ⟨0, le_refl 0, by norm_num, ?_, ?_⟩
      · rw [hpos2]
        ring
      · rw [hpos2]
        ring
    · intro _
      exact hpos2
  · rw [if_neg hsnap]
    set d := hyp ((nx : ℚ) - b.pos.1) ((ny : ℚ) - b.pos.2) with hd
    by_cases hdz : d = 0
    · rw [if_neg (by simpa using hdz)]
      constructor
      · exact ⟨1, by norm_num, by norm_num, by ring, by ring⟩
      · rintro ⟨-, hne⟩
        exact absurd hdz hne
    · rw [if_pos (by simpa using hdz)]
      have hdpos : 0 < d := lt_of_le_of_ne (H.nonneg _ _) (Ne.symm hdz)
      have hstep : ¬ (d ≤ speed_after b.speed rest.isEmpty dt * dt) := by
        intro hle
        exact hsnap ⟨hle, hdz⟩
      push_neg at hstep
      set st := speed_after b.speed rest.isEmpty dt * dt with hst
      have hstnn : 0 ≤ st := mul_nonneg hspnn hdt
      constructor
      · refine ⟨1 - st / d, ?_, ?_, ?_, ?_⟩
        · have : st / d < 1 := (div_lt_one hdpos).mpr hstep
          linarith
        · have : 0 ≤ st / d := div_nonneg hstnn hdpos.le
          linarith
        · dsimp only
          field_simp
          ring
        · dsimp only
          field_simp
          ring
      · rintro ⟨hle, -⟩
        exact absurd hle (not_le.mpr hstep)

theorem simulate_speed_bounds (hyp : ℚ → ℚ → ℚ) (oracle : ℕ → ℕ)
    (ticks : List (ℚ × List OtherBot)) (g : List Cell) (b : Bot)
    (hticks : ∀ tk ∈ ticks, 0 ≤ tk.1)
    (h0 : 0 ≤ b.speed) (h2 : b.speed ≤ MAX_SPEED_CELLS_PER_SEC) :
    0 ≤ (simulate hyp oracle ticks (g, b)).2.speed ∧
    (simulate hyp oracle ticks (g, b)).2.speed ≤ MAX_SPEED_CELLS_PER_SEC := by
  induction ticks generalizing g b with
  | nil => exact ⟨h0, h2⟩
  | cons tk rest ih =>
    have hb := update_speed_bounds hyp oracle tk.1 tk.2 g b
      (hticks tk (List.mem_cons_self tk rest)) h0 h2
    exact ih (Bot.update hyp oracle tk.1 tk.2 g b).1
      (Bot.update hyp oracle tk.1 tk.2 g b).2
      (fun tk' h => hticks tk' (List.mem_cons_of_mem _ h)) hb.1 hb.2

/-- C9: in every tick with `dt > 0` from a state with speed in
`[0, MAX_SPEED]`, the updated speed stays in `[0, MAX_SPEED]` (and remains
so across every sequence of such ticks), and the bot never overshoots: when
the tick does not move (empty path or occupied next waypoint) the position
is unchanged; otherwise the new position lies on the closed segment to the
next waypoint, and whenever the displacement `speed * dt` reaches the
remaining distance the position snaps exactly to the waypoint. -/
theorem claim_C9 (hyp : ℚ → ℚ → ℚ) (H : HypotSpec hyp) (oracle : ℕ → ℕ)
    (dt : ℚ) (others : List OtherBot) (g : List Cell) (b : Bot)
    (hdt : 0 < dt) (h0 : 0 ≤ b.speed) (h2 : b.speed ≤ MAX_SPEED_CELLS_PER_SEC) :
    (0 ≤ (Bot.update hyp oracle dt others g b).2.speed ∧
     (Bot.update hyp oracle dt others g b).2.speed ≤ MAX_SPEED_CELLS_PER_SEC) ∧
    ((replanned others b).target_path = [] →
       (Bot.update hyp oracle dt others g b).2.pos = b.pos) ∧
    (∀ (nx ny : ℤ) (rest : List Node),
      (replanned others b).target_path = (nx, ny) :: rest →
      ((nx, ny) ∈ others.map rounded_pos →
         (Bot.update hyp oracle dt others g b).2.pos = b.pos) ∧
      ((nx, ny) ∉ others.map rounded_pos →
         toward_seg b.pos (Bot.update hyp oracle dt others g b).2.pos (nx, ny) ∧
         ((hyp ((nx : ℚ) - b.pos.1) ((ny : ℚ) - b.pos.2) ≤
             speed_after b.speed rest.isEmpty dt * dt ∧
           hyp ((nx : ℚ) - b.pos.1) ((ny : ℚ) - b.pos.2) ≠ 0) →
           (Bot.update hyp oracle dt others g b).2.pos = ((nx : ℚ), (ny : ℚ))))) ∧
    (∀ ticks : List (ℚ × List OtherBot), (∀ tk ∈ ticks, 0 ≤ tk.1) →
       0 ≤ (simulate hyp oracle ticks (g, b)).2.speed ∧
       (simulate hyp oracle ticks (g, b)).2.speed ≤ MAX_SPEED_CELLS_PER_SEC) :=
  ⟨update_speed_bounds hyp oracle dt others g b hdt.le h0 h2,
   fun hp => update_pos_empty hyp oracle dt others g b hp,
   fun nx ny rest hp =>
     ⟨fun hocc => update_pos_occupied hyp oracle dt others g b nx ny rest hp hocc,
      fun hocc => update_move hyp H oracle dt others g b hdt.le h0 h2 nx ny rest hp hocc⟩,
   fun ticks ht => simulate_speed_bounds hyp oracle ticks g b ht h0 h2⟩

/-- Witness for C9 at a concrete bot and tick. -/
theorem claim_C9_witness :
    0 ≤ (Bot.update hyp_taxi (fun _ => 0) 1 [] [] zero_dist_bot).2.speed ∧
    (Bot.update hyp_taxi (fun _ => 0) 1 [] [] zero_dist_bot).2.speed ≤
      MAX_SPEED_CELLS_PER_SEC :=
  (claim_C9 hyp_taxi hyp_taxi_spec (fun _ => 0) 1 [] [] zero_dist_bot
    one_pos (by norm_num [zero_dist_bot])
    (by norm_num [zero_dist_bot, MAX_SPEED_CELLS_PER_SEC])).1

theorem min_entry_mem (e : Entry) (l : List Entry) : min_entry e l ∈ e :: l := by
  induction l generalizing e with
  | nil => exact List.mem_singleton.mpr rfl
  | cons x xs ih =>
    unfold min_entry
    rw [List.foldl_cons]
    have h := ih (if entry_lt x e then x else e)
    rw [min_entry] at h
    rcases List.mem_cons.mp h with h | h
    · rw [h]
      split
      · exact List.mem_cons_of_mem _ (List.mem_cons_self _ _)
      · exact List.mem_cons_self _ _
    · exact List.mem_cons_of_mem _ (List.mem_cons_of_mem _ h)

theorem pop_min_mem {l : List Entry} {e : Entry} {rest : List Entry}
    (h : pop_min l = some (e, rest)) : e ∈ l ∧ rest = l.erase e := by
  unfold pop_min at h
  cases l with
  | nil => exact absurd h (by simp)
  | cons x xs =>
    dsimp only at h
    injection h with h
    injection h with h1 h2
    subst h1
    exact ⟨min_entry_mem x xs, h2.symm⟩

theorem relax_heap_not_goal {width height : ℤ} {blocked : List Node}
    {goal cur : Node} {st : AState} {d : Node}
    (hgb : goal ∈ blocked)
    (hst : ∀ e ∈ st.openH, e.2.2 ≠ goal) :
    ∀ e ∈ (relax width height blocked goal cur st d).openH, e.2.2 ≠ goal := by
  unfold relax
  dsimp only
  by_cases hc : (in_bounds width height (step_dir cur d) &&
      !(blocked.contains (step_dir cur d)) : Bool)
  · rw [if_pos hc]
    have hnb : step_dir cur d ≠ goal := by
      intro he
      have := (Bool.and_eq_true _ _).mp hc
      rw [he] at this
      have hb : (blocked.contains goal : Bool) = true := by
        simpa using hgb
      rw [hb] at this
      simpa using this.2
    split
    · split
      · exact hst
      · intro e he
        rcases List.mem_cons.mp he with he | he
        · rw [he]; exact hnb
        · exact hst e he
    · exact hst
  · rw [if_neg hc]
    exact hst

theorem expand_heap_not_goal {width height : ℤ} {blocked : List Node}
    {goal cur : Node} {st : AState}
    (hgb : goal ∈ blocked)
    (hst : ∀ e ∈ st.openH, e.2.2 ≠ goal) :
    ∀ e ∈ (expand width height blocked goal cur st).openH, e.2.2 ≠ goal := by
  unfold expand
  have key : ∀ (l : List Node) (st : AState),
      (∀ e ∈ st.openH, e.2.2 ≠ goal) →
      ∀ e ∈ (l.foldl (relax width height blocked goal cur) st).openH,
        e.2.2 ≠ goal := by
    intro l
    induction l with
    | nil => intro st h; exact h
    | cons d ds ih =>
      intro st h
      rw [List.foldl_cons]
      exact ih _ (relax_heap_not_goal hgb h)
  exact key dirs st hst

theorem astar_loop_blocked_goal {width height : ℤ} {blocked : List Node}
    {goal : Node} (hgb : goal ∈ blocked) :
    ∀ (fuel : ℕ) (st : AState), (∀ e ∈ st.openH, e.2.2 ≠ goal) →
      astar_loop width height blocked goal fuel st = none := by
  intro fuel
  induction fuel with
  | zero => intro st _; rfl
  | succ n ih =>
    intro st hst
    unfold astar_loop
    cases hpm : pop_min st.openH with
    | none => rfl
    | some pr =>
      obtain ⟨⟨f, c, cur⟩, rest⟩ := pr
      have hcur : cur ≠ goal := hst _ (pop_min_mem hpm).1
      dsimp only
      rw [if_neg hcur]
      apply ih
      apply expand_heap_not_goal hgb
      intro e he
      dsimp only at he
      apply hst
      rw [(pop_min_mem hpm).2] at he
      exact List.mem_of_mem_erase he

theorem find_path_goal_blocked (start goal : Node) (blocked : List Node)
    (hgb : goal ∈ blocked) (hne : start ≠ goal) :
    find_path start goal blocked = none := by
  unfold find_path
  rw [if_neg hne]
  apply astar_loop_blocked_goal hgb
  intro e he
  unfold init_state at he
  rcases List.mem_singleton.mp he with rfl
  exact hne

/-- C4 counterexample: with another bot at `(2, 0)` whose next waypoint is
`(1, 0)`, a search toward goal `(1, 0)` builds a dense blocked set that
*contains* the goal (the discard happens before the waypoints are added),
and the dense-phase search then treats the goal as impassable and fails,
although the loose set admits the one-step path — refuting the claim that
the goal is never treated as impassable in both phases. -/
theorem claim_C4_counterexample :
    ((1, 0) : Node) ∈ dense_blocked c4_others (1, 0) ∧
    find_path (0, 0) (1, 0) (dense_blocked c4_others (1, 0)) = none ∧
    find_path (0, 0) (1, 0) (loose_blocked c4_others (1, 0)) =
      some [(0, 0), (1, 0)] := by
  have hmem : ((1, 0) : Node) ∈ dense_blocked c4_others (1, 0) := by
    apply List.mem_append_right
    simp [c4_others]
  refine ⟨hmem, find_path_goal_blocked _ _ _ hmem (by decide), ?_⟩
  have h2 : round_half_even (2 : ℚ) = 2 := by
    have h := rhe_intCast 2
    simpa using h
  have hl : loose_blocked c4_others (1, 0) = [(2, 0)] := by
    unfold loose_blocked c4_others rounded_pos
    simp [h2, rhe_zero]
  rw [hl]
  decide

/-- C4 (amended): the goal is honored only in the loose phase — the loose
blocked set (other bots' rounded positions) never contains the goal, but the
dense set may contain it as another bot's next waypoint, in which case
`find_path` (which has no special case for the goal) fails the dense search
outright and `_compute_path_to` falls back to the loose search. -/
theorem claim_C4 (others : List OtherBot) (target start : Node) :
    target ∉ loose_blocked others target ∧
    (target ∈ dense_blocked others target → start ≠ target →
      find_path start target (dense_blocked others target) = none ∧
      select_path start target others =
        find_path start target (loose_blocked others target)) := by
  constructor
  · intro h
    simp [loose_blocked, List.mem_filter] at h
  · intro hmem hne
    have hdense := find_path_goal_blocked start target _ hmem hne
    refine ⟨hdense, ?_⟩
    unfold select_path
    rw [hdense]

/-- Witness for C4: the loose set excludes the goal and the fallback is
taken in the concrete two-bot configuration. -/
theorem claim_C4_witness :
    ((1, 0) : Node) ∉ loose_blocked c4_others (1, 0) ∧
    select_path (0, 0) (1, 0) c4_others =
      find_path (0, 0) (1, 0) (loose_blocked c4_others (1, 0)) :=
  ⟨(claim_C4 c4_others (1, 0) (0, 0)).1,
   ((claim_C4 c4_others (1, 0) (0, 0)).2
      (by apply List.mem_append_right; simp [c4_others]) (by decide)).2⟩

theorem mem_dirs_iff (d : Node) :
    d ∈ dirs ↔ d = (1, 0) ∨ d = (-1, 0) ∨ d = (0, 1) ∨ d = (0, -1) := by
  simp [dirs]

theorem heuristic_self (a : Node) : heuristic a a = 0 := by
  unfold heuristic
  simp

theorem heuristic_eq_zero {a b : Node} (h : heuristic a b = 0) : a = b := by
  unfold heuristic at h
  obtain ⟨a1, a2⟩ := a
  obtain ⟨b1, b2⟩ := b
  simp only [Prod.mk.injEq]
  constructor <;> omega

theorem heuristic_triangle (s g n : Node) :
    heuristic s g ≤ heuristic s n + heuristic n g := by
  unfold heuristic
  omega

theorem heuristic_step (a n : Node) (d : Node) (hd : d ∈ dirs) :
    heuristic a (step_dir n d) = heuristic a n + 1 ∨
    heuristic a n = heuristic a (step_dir n d) + 1 := by
  rcases (mem_dirs_iff d).mp hd with rfl | rfl | rfl | rfl <;>
    (unfold heuristic step_dir; dsimp only; omega)

theorem adjacent_of_step {p n : Node} (d : Node) (hd : d ∈ dirs)
    (h : n = step_dir p d) : adjacent n p := by
  subst h
  rcases (mem_dirs_iff d).mp hd with rfl | rfl | rfl | rfl <;>
    (unfold adjacent step_dir; dsimp only; omega)

theorem onSeg_start (s g : Node) : onSeg s g s := by
  unfold onSeg
  rw [heuristic_self]
  omega

theorem onSeg_goal (s g : Node) : onSeg s g g := by
  unfold onSeg
  rw [heuristic_self]
  omega

theorem onSeg_in_bounds {width height : ℤ} {s g n : Node}
    (hs : in_bounds width height s = true) (hg : in_bounds width height g = true)
    (hn : onSeg s g n) : in_bounds width height n = true := by
  unfold onSeg heuristic at hn
  unfold in_bounds at *
  simp only [Bool.and_eq_true, decide_eq_true_eq] at *
  omega

theorem onSeg_max_eq_goal {s g n : Node} (h1 : onSeg s g n)
    (h2 : heuristic s n = heuristic s g) : n = g := by
  unfold onSeg at h1
  have hng : heuristic n g = 0 := by omega
  exact heuristic_eq_zero hng

theorem onSeg_zero_eq_start {s n : Node} (h : heuristic s n = 0) : n = s :=
  (heuristic_eq_zero h).symm

theorem onSeg_le {s g n : Node} (h : onSeg s g n) :
    heuristic s n ≤ heuristic s g := by
  unfold onSeg at h
  omega

theorem onSeg_back {s g cur : Node} (d : Node) (hd : d ∈ dirs)
    (hc : onSeg s g cur)
    (hD : heuristic s (step_dir cur d) + 1 = heuristic s cur) :
    onSeg s g (step_dir cur d) := by
  rcases (mem_dirs_iff d).mp hd with rfl | rfl | rfl | rfl <;>
    (unfold onSeg heuristic step_dir at *; dsimp only at *; omega)

theorem onSeg_pred {s g r : Node} (hr : onSeg s g r)
    (h1 : 1 ≤ heuristic s r) :
    ∃ d ∈ dirs, onSeg s g (step_dir r d) ∧
      heuristic s (step_dir r d) + 1 = heuristic s r := by
  obtain ⟨s1, s2⟩ := s
  obtain ⟨g1, g2⟩ := g
  obtain ⟨r1, r2⟩ := r
  unfold onSeg heuristic at hr
  unfold heuristic at h1
  dsimp only at hr h1
  rcases lt_trichotomy r1 s1 with hx | hx | hx
  · refine ⟨(1, 0), by simp [dirs], ?_, ?_⟩ <;>
      (simp only [onSeg, heuristic, step_dir]; omega)
  · rcases lt_trichotomy r2 s2 with hy | hy | hy
    · refine ⟨(0, 1), by simp [dirs], ?_, ?_⟩ <;>
        (simp only [onSeg, heuristic, step_dir]; omega)
    · exfalso
      omega
    · refine ⟨(0, -1), by simp [dirs], ?_, ?_⟩ <;>
        (simp only [onSeg, heuristic, step_dir]; omega)
  · refine ⟨(-1, 0), by simp [dirs], ?_, ?_⟩ <;>
      (simp only [onSeg, heuristic, step_dir]; omega)

theorem onSeg_succ {s g r : Node} (hr : onSeg s g r)
    (h1 : heuristic s r < heuristic s g) :
    ∃ d ∈ dirs, onSeg s g (step_dir r d) ∧
      heuristic s (step_dir r d) = heuristic s r + 1 := by
  obtain ⟨s1, s2⟩ := s
  obtain ⟨g1, g2⟩ := g
  obtain ⟨r1, r2⟩ := r
  unfold onSeg heuristic at hr
  unfold heuristic at h1
  dsimp only at hr h1
  rcases lt_trichotomy r1 g1 with hx | hx | hx
  · refine ⟨(1, 0), by simp [dirs], ?_, ?_⟩ <;>
      (simp only [onSeg, heuristic, step_dir]; omega)
  · rcases lt_trichotomy r2 g2 with hy | hy | hy
    · refine ⟨(0, 1), by simp [dirs], ?_, ?_⟩ <;>
        (simp only [onSeg, heuristic, step_dir]; omega)
    · exfalso
      omega
    · refine ⟨(0, -1), by simp [dirs], ?_, ?_⟩ <;>
        (simp only [onSeg, heuristic, step_dir]; omega)
  · refine ⟨(-1, 0), by simp [dirs], ?_, ?_⟩ <;>
      (simp only [onSeg, heuristic, step_dir]; omega)

theorem entry_lt_eq_true {a b : Entry} :
    entry_lt a b = true ↔ (a.1 < b.1 ∨ (a.1 = b.1 ∧ a.2.1 < b.2.1)) := by
  unfold entry_lt
  simp

theorem entry_lt_eq_false {a b : Entry} :
    entry_lt a b = false ↔ ¬(a.1 < b.1 ∨ (a.1 = b.1 ∧ a.2.1 < b.2.1)) := by
  rw [← entry_lt_eq_true]
  cases h : entry_lt a b <;> simp

theorem min_entry_least (l : List Entry) : ∀ (e : Entry), ∀ x ∈ e :: l,
    entry_lt x (min_entry e l) = false := by
  induction l with
  | nil =>
    intro e x hx
    rcases List.mem_singleton.mp hx with rfl
    unfold min_entry
    rw [List.foldl_nil, entry_lt_eq_false]
    omega
  | cons y ys ih =>
    intro e x hx
    have heq : min_entry e (y :: ys) = min_entry (if entry_lt y e then y else e) ys := by
      unfold min_entry
      rw [List.foldl_cons]
    rw [heq]
    rcases List.mem_cons.mp hx with heq | hx'
    · subst heq
      by_cases hy : (entry_lt y x : Bool)
      · have hym := ih (if entry_lt y x then y else x) y
          (by rw [if_pos hy]; exact List.mem_cons_self _ _)
        rw [entry_lt_eq_true] at hy
        rw [entry_lt_eq_false] at hym ⊢
        omega
      · exact ih _ x (by rw [if_neg hy]; exact List.mem_cons_self _ _)
    · rcases List.mem_cons.mp hx' with heq | hx''
      · subst heq
        by_cases hy : (entry_lt x e : Bool)
        · exact ih _ x (by rw [if_pos hy]; exact List.mem_cons_self _ _)
        · rw [if_neg hy]
          have hem := ih (if entry_lt x e then x else e)
            (if entry_lt x e then x else e) (List.mem_cons_self _ _)
          rw [if_neg hy] at hem
          have hy' : entry_lt x e = false := by
            cases h : entry_lt x e
            · rfl
            · exact absurd h hy
          rw [entry_lt_eq_false] at hem hy' ⊢
          omega
      · exact ih _ x (List.mem_cons_of_mem _ hx'')

theorem pop_min_least {l : List Entry} {m : Entry} {rest : List Entry}
    (h : pop_min l = some (m, rest)) : ∀ e ∈ l, entry_lt e m = false := by
  unfold pop_min at h
  cases l with
  | nil => exact absurd h (by simp)
  | cons x xs =>
    dsimp only at h
    injection h with h
    injection h with h1 h2
    subst h1
    exact min_entry_least xs x

theorem reconstruct_spec (st : AState) (start : Node)
    (hcf_start : st.cameFrom start = none)
    (hcf_total : ∀ n, assignedN st n → n ≠ start → ∃ p, st.cameFrom n = some p)
    (hcf_step : ∀ n p, st.cameFrom n = some p →
      assignedN st p ∧ (∃ d ∈ dirs, n = step_dir p d) ∧
      heuristic start n = heuristic start p + 1) :
    ∀ (fuel : ℕ) (n : Node), assignedN st n → heuristic start n < fuel →
      (reconstruct st.cameFrom fuel n).length = heuristic start n + 1 ∧
      (reconstruct st.cameFrom fuel n).head? = some n ∧
      (reconstruct st.cameFrom fuel n).getLast? = some start ∧
      List.Chain' adjacent (reconstruct st.cameFrom fuel n) := by
  intro fuel
  induction fuel with
  | zero => intro n _ h; omega
  | succ m ih =>
    intro n hassigned hlt
    by_cases hn : n = start
    · unfold reconstruct
      rw [hn, hcf_start]
      exact ⟨by simp [heuristic_self], by simp, by simp, by simp⟩
    · obtain ⟨p, hp⟩ := hcf_total n hassigned hn
      obtain ⟨hpa, ⟨d, hd, hnd⟩, hD⟩ := hcf_step n p hp
      unfold reconstruct
      rw [hp]
      dsimp only
      have hplt : heuristic start p < m := by omega
      obtain ⟨ihl, ihh, ihlast, ihchain⟩ := ih p hpa hplt
      refine ⟨?_, by simp, ?_, ?_⟩
      · simp only [List.length_cons, ihl]
        omega
      · cases hl : reconstruct st.cameFrom m p with
        | nil =>
          rw [hl] at ihh
          simp at ihh
        | cons b bs =>
          rw [hl] at ihlast
          rw [List.getLast?_cons_cons]
          exact ihlast
      · refine List.chain'_cons'.mpr ⟨?_, ihchain⟩
        intro b hb
        rw [ihh] at hb
        rcases Option.mem_some_iff.mp hb with rfl
        exact adjacent_of_step d hd hnd

theorem assigned_init {start goal n : Node} :
    assignedN (init_state start goal) n ↔ n = start := by
  unfold assignedN init_state
  dsimp only
  by_cases h : n = start
  · subst h
    simp
  · rw [Function.update_noteq h]
    simp [h]

theorem init_inv (width height : ℤ) (start goal : Node)
    (hs : in_bounds width height start = true)
    (hg : in_bounds width height goal = true)
    (hne : start ≠ goal) :
    AInv width height start goal (init_state start goal) := by
  constructor
  · intro n k h
    by_cases hn : n = start
    · subst hn
      unfold init_state at h
      dsimp only at h
      rw [Function.update_same] at h
      injection h with h
      rw [← h, heuristic_self]
    · unfold init_state at h
      dsimp only at h
      rw [Function.update_noteq hn] at h
      exact absurd h (by simp)
  · intro n h
    rw [assigned_init] at h
    subst h
    exact hs
  · rw [assigned_init]
  · unfold init_state
    dsimp only
  · intro n h hn
    rw [assigned_init] at h
    exact absurd h hn
  · intro n p h
    exact absurd h (by unfold init_state; simp)
  · intro n h
    unfold init_state at h
    dsimp only at h
    rcases List.mem_singleton.mp h with rfl
    rw [assigned_init]
  · unfold init_state
    simp
  · intro e he
    unfold init_state at he ⊢
    dsimp only at he ⊢
    rcases List.mem_singleton.mp he with rfl
    simp
  · unfold init_state
    simp
  · intro n hn
    unfold init_state at hn ⊢
    dsimp only at hn ⊢
    rcases List.mem_singleton.mp hn with rfl
    exact ⟨_, List.mem_singleton.mpr rfl, rfl⟩
  · intro e he
    unfold init_state at he
    dsimp only at he
    rcases List.mem_singleton.mp he with rfl
    dsimp only
    rw [heuristic_self]
    omega
  · intro e he
    unfold init_state at he ⊢
    dsimp only at he ⊢
    rcases List.mem_singleton.mp he with rfl
    exact le_refl 0
  · intro e₁ he₁ e₂ he₂ _ _ hlt
    unfold init_state at he₁ he₂
    dsimp only at he₁ he₂
    rcases List.mem_singleton.mp he₁ with rfl
    rcases List.mem_singleton.mp he₂ with rfl
    exact absurd hlt (lt_irrefl _)
  · intro n hp d hd hin
    exfalso
    obtain ⟨ha, hno⟩ := hp
    rw [assigned_init] at ha
    subst ha
    exact hno (by unfold init_state; exact List.mem_singleton.mpr rfl)
  · intro h
    rw [assigned_init] at h
    exact absurd h.symm hne
  · refine ⟨0, Nat.zero_le _, ?_, ?_, ?_⟩
    · intro r _ h
      omega
    · intro n hp
      exfalso
      obtain ⟨ha, hno⟩ := hp
      rw [assigned_init] at ha
      subst ha
      exact hno (by unfold init_state; exact List.mem_singleton.mpr rfl)
    · intro e he _
      unfold init_state at he
      dsimp only at he
      rcases List.mem_singleton.mp he with rfl
      dsimp only
      rw [heuristic_self]
      omega

theorem relax_step (width height : ℤ) (start goal cur : Node) (st : AState)
    (d : Node) (hd : d ∈ dirs)
    (hcs : onSeg start goal cur)
    (hg_opt : ∀ n k, st.gScore n = some k → k = heuristic start n)
    (hopen_sub : ∀ n ∈ st.openNodes, assignedN st n)
    (hcur_g : st.gScore cur = some (heuristic start cur))
    (hlayer1 : ∀ r, onSeg start goal r →
      heuristic start r < heuristic start cur → poppedN st r) :
    (relax width height [] goal cur st d = st ∧
     (in_bounds width height (step_dir cur d) = true →
       assignedN st (step_dir cur d))) ∨
    (in_bounds width height (step_dir cur d) = true ∧
     st.gScore (step_dir cur d) = none ∧
     (step_dir cur d) ∉ st.openNodes ∧
     heuristic start (step_dir cur d) = heuristic start cur + 1 ∧
     relax width height [] goal cur st d =
       { st with
          cameFrom := Function.update st.cameFrom (step_dir cur d) (some cur)
          gScore := Function.update st.gScore (step_dir cur d)
            (some (heuristic start cur + 1))
          fScore := Function.update st.fScore (step_dir cur d)
            (some (heuristic start cur + 1 + heuristic (step_dir cur d) goal))
          openH := (heuristic start cur + 1 + heuristic (step_dir cur d) goal,
            st.counter + 1, step_dir cur d) :: st.openH
          openNodes := step_dir cur d :: st.openNodes
          counter := st.counter + 1 }) := by
  unfold relax
  dsimp only
  by_cases hb : in_bounds width height (step_dir cur d) = true
  · rw [if_pos (by simp [hb])]
    cases hgn : st.gScore (step_dir cur d) with
    | some gn =>
      left
      constructor
      · have hgn' : gn = heuristic start (step_dir cur d) := hg_opt _ _ hgn
        have hDn := heuristic_step start cur d hd
        rw [hcur_g]
        dsimp only [Option.getD_some]
        rw [if_neg]
        intro hlt
        rw [decide_eq_true_eq] at hlt
        omega
      · intro _
        unfold assignedN
        rw [hgn]
        rfl
    | none =>
      right
      have hno : (step_dir cur d) ∉ st.openNodes := by
        intro hmem
        have ha := hopen_sub _ hmem
        unfold assignedN at ha
        rw [hgn] at ha
        simp at ha
      have hDn : heuristic start (step_dir cur d) = heuristic start cur + 1 := by
        rcases heuristic_step start cur d hd with h | h
        · exact h
        · exfalso
          have hseg : onSeg start goal (step_dir cur d) :=
            onSeg_back d hd hcs (by omega)
          have hpop := hlayer1 _ hseg (by omega)
          have ha := hpop.1
          unfold assignedN at ha
          rw [hgn] at ha
          simp at ha
      have hcont : (st.openNodes.contains (step_dir cur d)) = false := by
        simpa using hno
      refine ⟨hb, rfl, hno, hDn, ?_⟩
      rw [if_pos rfl, if_neg (by rw [hcont]; simp)]
      rw [hcur_g]
      rfl
  · left
    constructor
    · rw [if_neg]
      intro hc
      rw [Bool.and_eq_true] at hc
      exact hb hc.1
    · intro hc
      exact absurd hc hb

theorem relax_mid (width height : ℤ) (start goal cur : Node) (st : AState)
    (d : Node) (hd : d ∈ dirs) (hcs : onSeg start goal cur)
    (hM : MidInv width height start goal cur st) :
    MidInv width height start goal cur (relax width height [] goal cur st d) := by
  rcases relax_step width height start goal cur st d hd hcs hM.g_opt hM.open_sub
      hM.cur_g hM.layer1 with ⟨heq, -⟩ | ⟨hb, hgn, hno, hDn, heq⟩
  · rw [heq]
    exact hM
  · rw [heq]
    have hns : step_dir cur d ≠ start := by
      intro h
      rw [h] at hgn
      have := hM.start_assigned
      unfold assignedN at this
      rw [hgn] at this
      simp at this
    have hncur : step_dir cur d ≠ cur := by
      intro h
      rw [h] at hgn
      rw [hM.cur_g] at hgn
      simp at hgn
    have hmono : ∀ m, assignedN st m →
        (Function.update st.gScore (step_dir cur d)
          (some (heuristic start cur + 1)) m).isSome = true := by
      intro m hm
      by_cases h : m = step_dir cur d
      · subst h
        rw [Function.update_same]
        rfl
      · rw [Function.update_noteq h]
        exact hm
    have hiff : ∀ m,
        (Function.update st.gScore (step_dir cur d)
          (some (heuristic start cur + 1)) m).isSome = true ↔
        (m = step_dir cur d ∨ assignedN st m) := by
      intro m
      by_cases h : m = step_dir cur d
      · subst h
        rw [Function.update_same]
        simp
      · rw [Function.update_noteq h]
        unfold assignedN
        simp [h]
    constructor
    · -- g_opt
      intro m k h
      dsimp only at h
      by_cases hm : m = step_dir cur d
      · subst hm
        rw [Function.update_same] at h
        injection h with h
        omega
      · rw [Function.update_noteq hm] at h
        exact hM.g_opt m k h
    · -- g_inb
      intro m hm
      unfold assignedN at hm
      dsimp only at hm
      rcases (hiff m).mp hm with rfl | hold
      · exact hb
      · exact hM.g_inb m hold
    · -- start_assigned
      unfold assignedN
      dsimp only
      exact hmono start hM.start_assigned
    · -- cf_start
      dsimp only
      rw [Function.update_noteq (Ne.symm hns)]
      exact hM.cf_start
    · -- cf_total
      intro m hm hne
      unfold assignedN at hm
      dsimp only at hm ⊢
      rcases (hiff m).mp hm with rfl | hold
      · exact ⟨cur, by rw [Function.update_same]⟩
      · obtain ⟨p, hp⟩ := hM.cf_total m hold hne
        by_cases h : m = step_dir cur d
        · subst h
          exact ⟨cur, by rw [Function.update_same]⟩
        · exact ⟨p, by rw [Function.update_noteq h]; exact hp⟩
    · -- cf_step
      intro m p h
      dsimp only at h
      by_cases hm : m = step_dir cur d
      · subst hm
        rw [Function.update_same] at h
        injection h with h
        subst h
        refine ⟨?_, ⟨d, hd, rfl⟩, hDn⟩
        unfold assignedN
        dsimp only
        apply hmono
        unfold assignedN
        rw [hM.cur_g]
        rfl
      · rw [Function.update_noteq hm] at h
        obtain ⟨hpa, hstep, hDm⟩ := hM.cf_step m p h
        refine ⟨?_, hstep, hDm⟩
        unfold assignedN
        dsimp only
        exact hmono p hpa
    · -- open_sub
      intro m hm
      dsimp only at hm
      unfold assignedN
      dsimp only
      rcases List.mem_cons.mp hm with rfl | hold
      · rw [Function.update_same]
        rfl
      · exact hmono m (hM.open_sub m hold)
    · -- open_nodup
      dsimp only
      exact List.Nodup.cons hno hM.open_nodup
    · -- heap_nodes
      intro e he
      dsimp only at he ⊢
      rcases List.mem_cons.mp he with rfl | hold
      · exact List.mem_cons_self _ _
      · exact List.mem_cons_of_mem _ (hM.heap_nodes e hold)
    · -- heap_nodes_nodup
      dsimp only
      rw [List.map_cons]
      refine List.Nodup.cons ?_ hM.heap_nodes_nodup
      intro hmem
      rcases List.mem_map.mp hmem with ⟨e, he, hee⟩
      apply hno
      have h2 : e.2.2 = step_dir cur d := hee
      exact h2 ▸ hM.heap_nodes e he
    · -- open_heap
      intro m hm
      dsimp only at hm ⊢
      rcases List.mem_cons.mp hm with rfl | hold
      · exact ⟨_, List.mem_cons_self _ _, rfl⟩
      · obtain ⟨e, he, hee⟩ := hM.open_heap m hold
        exact ⟨e, List.mem_cons_of_mem _ he, hee⟩
    · -- heap_f
      intro e he
      dsimp only at he
      rcases List.mem_cons.mp he with rfl | hold
      · dsimp only
        omega
      · exact hM.heap_f e hold
    · -- heap_ctr
      intro e he
      dsimp only at he ⊢
      rcases List.mem_cons.mp he with rfl | hold
      · exact le_refl _
      · exact Nat.le_succ_of_le (hM.heap_ctr e hold)
    · -- heap_order
      intro e₁ he₁ e₂ he₂ hs₁ hs₂ hlt
      dsimp only at he₁ he₂
      rcases List.mem_cons.mp he₁ with rfl | h₁ <;>
        rcases List.mem_cons.mp he₂ with rfl | h₂
      · exact absurd hlt (lt_irrefl _)
      · exfalso
        dsimp only at hlt hs₁
        have h5 := hM.layer5 e₂ h₂ hs₂
        omega
      · dsimp only
        exact Nat.lt_succ_of_le (hM.heap_ctr e₁ h₁)
      · exact hM.heap_order e₁ h₁ e₂ h₂ hs₁ hs₂ hlt
    · -- goal_open
      intro hm
      unfold assignedN at hm
      dsimp only at hm ⊢
      rcases (hiff goal).mp hm with heq' | hold
      · rw [← heq']
        exact List.mem_cons_self _ _
      · exact List.mem_cons_of_mem _ (hM.goal_open hold)
    · -- cur_g
      dsimp only
      rw [Function.update_noteq (Ne.symm hncur)]
      exact hM.cur_g
    · -- layer1
      intro r hr hlt
      obtain ⟨ha, hop⟩ := hM.layer1 r hr hlt
      refine ⟨?_, ?_⟩
      · unfold assignedN at ha ⊢
        dsimp only
        exact hmono r ha
      · dsimp only
        intro hmem
        rcases List.mem_cons.mp hmem with rfl | hold
        · unfold assignedN at ha
          rw [hgn] at ha
          simp at ha
        · exact hop hold
    · -- layer2
      intro m hm
      obtain ⟨ha, hop⟩ := hm
      dsimp only at hop
      have hmn : m ≠ step_dir cur d := by
        intro h
        exact hop (h ▸ List.mem_cons_self _ _)
      have hold : assignedN st m := by
        unfold assignedN at ha
        dsimp only at ha
        rcases (hiff m).mp ha with h | h
        · exact absurd h hmn
        · exact h
      exact hM.layer2 m ⟨hold, fun h => hop (List.mem_cons_of_mem _ h)⟩
    · -- layer5
      intro e he hs'
      dsimp only at he
      rcases List.mem_cons.mp he with rfl | hold
      · dsimp only
        omega
      · exact hM.layer5 e hold hs'

theorem mem_grid_nodes {width height : ℤ} {n : Node}
    (h : in_bounds width height n = true) : n ∈ grid_nodes width height := by
  unfold in_bounds at h
  simp only [Bool.and_eq_true, decide_eq_true_eq] at h
  obtain ⟨⟨⟨h1, h2⟩, h3⟩, h4⟩ := h
  unfold grid_nodes
  rw [List.mem_flatMap]
  refine ⟨n.1.toNat, ?_, ?_⟩
  · rw [List.mem_range]
    omega
  · rw [List.mem_map]
    refine ⟨n.2.toNat, by rw [List.mem_range]; omega, ?_⟩
    obtain ⟨n1, n2⟩ := n
    simp only [Prod.mk.injEq]
    constructor <;> omega

theorem countP_flip_lt {l : List Node} {p q : Node → Bool} {n : Node}
    (hn : n ∈ l) (hpq : ∀ m, m ≠ n → q m = p m)
    (hp : p n = true) (hq : q n = false) :
    l.countP q < l.countP p := by
  induction l with
  | nil => simp at hn
  | cons a ls ih =>
    rw [List.countP_cons, List.countP_cons]
    by_cases ha : a = n
    · subst ha
      rw [hp, hq]
      have hle : ls.countP q ≤ ls.countP p := by
        apply List.countP_mono_left
        intro m hm hqm
        by_cases h : m = a
        · subst h
          rw [hq] at hqm
          exact absurd hqm (by simp)
        · rw [hpq m h] at hqm
          exact hqm
      simp
      omega
    · rw [hpq a ha]
      have hmem : n ∈ ls := by
        rcases List.mem_cons.mp hn with h | h
        · exact absurd h.symm ha
        · exact h
      have hlt := ih hmem
      split_ifs <;> omega

theorem relax_effects (width height : ℤ) (start goal cur : Node) (st : AState)
    (d : Node) (hd : d ∈ dirs) (hcs : onSeg start goal cur)
    (hM : MidInv width height start goal cur st) :
    (∀ m, assignedN st m →
      assignedN (relax width height [] goal cur st d) m) ∧
    (in_bounds width height (step_dir cur d) = true →
      assignedN (relax width height [] goal cur st d) (step_dir cur d)) ∧
    (∀ m, poppedN (relax width height [] goal cur st d) m ↔ poppedN st m) ∧
    astar_measure width height (relax width height [] goal cur st d) ≤
      astar_measure width height st := by
  rcases relax_step width height start goal cur st d hd hcs hM.g_opt hM.open_sub
      hM.cur_g hM.layer1 with ⟨heq, hassigned⟩ | ⟨hb, hgn, hno, hDn, heq⟩
  · rw [heq]
    exact ⟨fun m hm => hm, hassigned, fun m => Iff.rfl, le_refl _⟩
  · rw [heq]
    have hupd : ∀ m, assignedN st m →
        (Function.update st.gScore (step_dir cur d)
          (some (heuristic start cur + 1)) m).isSome = true := by
      intro m hm
      by_cases h : m = step_dir cur d
      · subst h
        rw [Function.update_same]
        rfl
      · rw [Function.update_noteq h]
        exact hm
    refine ⟨fun m hm => hupd m hm, ?_, ?_, ?_⟩
    · intro _
      unfold assignedN
      dsimp only
      rw [Function.update_same]
      rfl
    · intro m
      unfold poppedN assignedN
      dsimp only
      constructor
      · rintro ⟨ha, hop⟩
        have hmn : m ≠ step_dir cur d := by
          intro h
          exact hop (h ▸ List.mem_cons_self _ _)
        rw [Function.update_noteq hmn] at ha
        exact ⟨ha, fun h => hop (List.mem_cons_of_mem _ h)⟩
      · rintro ⟨ha, hop⟩
        have hmn : m ≠ step_dir cur d := by
          intro h
          rw [h] at ha
          rw [hgn] at ha
          simp at ha
        rw [Function.update_noteq hmn]
        refine ⟨ha, ?_⟩
        intro hmem
        rcases List.mem_cons.mp hmem with h | h
        · exact hmn h
        · exact hop h
    · unfold astar_measure unassigned_count
      dsimp only
      rw [List.length_cons]
      have hcount :
          (grid_nodes width height).countP
              (fun n => (Function.update st.gScore (step_dir cur d)
                (some (heuristic start cur + 1)) n).isNone) <
            (grid_nodes width height).countP
              (fun n => (st.gScore n).isNone) := by
        apply countP_flip_lt (mem_grid_nodes hb)
        · intro m hm
          rw [Function.update_noteq hm]
        · rw [hgn]
          rfl
        · rw [Function.update_same]
          rfl
      omega

theorem expand_effects (width height : ℤ) (start goal cur : Node) (st : AState)
    (hcs : onSeg start goal cur)
    (hM : MidInv width height start goal cur st) :
    MidInv width height start goal cur (expand width height [] goal cur st) ∧
    (∀ m, assignedN st m → assignedN (expand width height [] goal cur st) m) ∧
    (∀ d ∈ dirs, in_bounds width height (step_dir cur d) = true →
      assignedN (expand width height [] goal cur st) (step_dir cur d)) ∧
    (∀ m, poppedN (expand width height [] goal cur st) m ↔ poppedN st m) ∧
    astar_measure width height (expand width height [] goal cur st) ≤
      astar_measure width height st := by
  suffices key : ∀ l : List Node, (∀ d ∈ l, d ∈ dirs) → ∀ st,
      MidInv width height start goal cur st →
      MidInv width height start goal cur
        (l.foldl (relax width height [] goal cur) st) ∧
      (∀ m, assignedN st m →
        assignedN (l.foldl (relax width height [] goal cur) st) m) ∧
      (∀ d ∈ l, in_bounds width height (step_dir cur d) = true →
        assignedN (l.foldl (relax width height [] goal cur) st) (step_dir cur d)) ∧
      (∀ m, poppedN (l.foldl (relax width height [] goal cur) st) m ↔
        poppedN st m) ∧
      astar_measure width height (l.foldl (relax width height [] goal cur) st) ≤
        astar_measure width height st by
    exact key dirs (fun d h => h) st hM
  intro l
  induction l with
  | nil =>
    intro _ st hM
    exact ⟨hM, fun m hm => hm, by simp, fun m => Iff.rfl, le_refl _⟩
  | cons d ds ih =>
    intro hsub st hM
    have hd : d ∈ dirs := hsub d (List.mem_cons_self _ _)
    have hM1 := relax_mid width height start goal cur st d hd hcs hM
    obtain ⟨mono1, dir1, popped1, meas1⟩ :=
      relax_effects width height start goal cur st d hd hcs hM
    obtain ⟨M2, mono2, dirs2, popped2, meas2⟩ :=
      ih (fun d' h => hsub d' (List.mem_cons_of_mem _ h))
        (relax width height [] goal cur st d) hM1
    rw [List.foldl_cons]
    refine ⟨M2, fun m hm => mono2 m (mono1 m hm), ?_, ?_, le_trans meas2 meas1⟩
    · intro d' hd' hb
      rcases List.mem_cons.mp hd' with rfl | hds
      · exact mono2 _ (dir1 hb)
      · exact dirs2 d' hds hb
    · intro m
      exact (popped2 m).trans (popped1 m)

theorem step_dir_inv (r : Node) (d : Node) (hd : d ∈ dirs) :
    ∃ d' ∈ dirs, step_dir (step_dir r d) d' = r := by
  obtain ⟨r1, r2⟩ := r
  rcases (mem_dirs_iff d).mp hd with rfl | rfl | rfl | rfl
  · refine ⟨(-1, 0), by simp [dirs], ?_⟩
    simp only [step_dir, Prod.mk.injEq]
    constructor <;> ring
  · refine ⟨(1, 0), by simp [dirs], ?_⟩
    simp only [step_dir, Prod.mk.injEq]
    constructor <;> ring
  · refine ⟨(0, -1), by simp [dirs], ?_⟩
    simp only [step_dir, Prod.mk.injEq]
    constructor <;> ring
  · refine ⟨(0, 1), by simp [dirs], ?_⟩
    simp only [step_dir, Prod.mk.injEq]
    constructor <;> ring

theorem assigned_of_seg {width height : ℤ} {start goal : Node} {st : AState}
    (inv : AInv width height start goal st)
    (hs : in_bounds width height start = true)
    (hg : in_bounds width height goal = true)
    (d : ℕ)
    (hlayer1 : ∀ r, onSeg start goal r → heuristic start r < d → poppedN st r) :
    ∀ r, onSeg start goal r → heuristic start r ≤ d → assignedN st r := by
  have key : ∀ k, ∀ r, onSeg start goal r → heuristic start r = k → k ≤ d →
      assignedN st r := by
    intro k
    induction k with
    | zero =>
      intro r hseg h0 _
      have hr : r = start := onSeg_zero_eq_start h0
      subst hr
      exact inv.start_assigned
    | succ j ihj =>
      intro r hseg hk hle
      obtain ⟨d', hd', hseg', hD'⟩ := onSeg_pred hseg (by omega)
      have hpop : poppedN st (step_dir r d') :=
        hlayer1 _ hseg' (by omega)
      obtain ⟨d'', hd'', hstep⟩ := step_dir_inv r d' hd'
      have hb : in_bounds width height r = true := onSeg_in_bounds hs hg hseg
      have := inv.expanded _ hpop d'' hd'' (by rw [hstep]; exact hb)
      rw [hstep] at this
      exact this
  intro r hseg hle
  exact key (heuristic start r) r hseg rfl hle

theorem seg_layer_nonempty {s g : Node} :
    ∀ level, level ≤ heuristic s g →
      ∃ r, onSeg s g r ∧ heuristic s r = level := by
  intro level
  induction level with
  | zero => exact fun _ => ⟨s, onSeg_start s g, heuristic_self s⟩
  | succ j ih =>
    intro hle
    obtain ⟨r, hseg, hD⟩ := ih (by omega)
    obtain ⟨d, hd, hseg', hD'⟩ := onSeg_succ hseg (by
      have := onSeg_le hseg
      omega)
    exact ⟨step_dir r d, hseg', by omega⟩

theorem frontier_R {width height : ℤ} {start goal : Node} {st : AState}
    (hs : in_bounds width height start = true)
    (hg : in_bounds width height goal = true)
    (inv : AInv width height start goal st) :
    ∃ e ∈ st.openH, onSeg start goal e.2.2 := by
  obtain ⟨d, hdM, h1, h2, h5⟩ := inv.layer
  by_cases hS : ∃ r, onSeg start goal r ∧ heuristic start r ≤ d ∧ ¬ poppedN st r
  · obtain ⟨r, hseg, hle, hnp⟩ := hS
    have hassigned := assigned_of_seg inv hs hg d h1 r hseg hle
    have hopen : r ∈ st.openNodes := by
      by_contra hno
      exact hnp ⟨hassigned, hno⟩
    obtain ⟨e, he, hee⟩ := inv.open_heap r hopen
    exact ⟨e, he, by rw [hee]; exact hseg⟩
  · push_neg at hS
    by_cases hdM' : d = heuristic start goal
    · exfalso
      have hgseg := onSeg_goal start goal
      have hgd : heuristic start goal ≤ d := by omega
      have hpop := hS goal hgseg hgd
      exact hpop.2 (inv.goal_open hpop.1)
    · obtain ⟨r, hseg, hD⟩ := @seg_layer_nonempty start goal d (by omega)
      have hpop := hS r hseg (by omega)
      obtain ⟨dd, hdd, hseg', hD'⟩ := onSeg_succ hseg (by omega)
      have hb' : in_bounds width height (step_dir r dd) = true :=
        onSeg_in_bounds hs hg hseg'
      have hassigned := inv.expanded r hpop dd hdd hb'
      have hnp : ¬ poppedN st (step_dir r dd) := by
        intro hp
        have := (h2 _ hp).2
        omega
      have hopen : step_dir r dd ∈ st.openNodes := by
        by_contra hno
        exact hnp ⟨hassigned, hno⟩
      obtain ⟨e, he, hee⟩ := inv.open_heap _ hopen
      exact ⟨e, he, by rw [hee]; exact hseg'⟩

theorem pop_analysis {width height : ℤ} {start goal : Node} {st : AState}
    {f c : ℕ} {cur : Node} {rest : List Entry}
    (hs : in_bounds width height start = true)
    (hg : in_bounds width height goal = true)
    (inv : AInv width height start goal st)
    (hpop : pop_min st.openH = some ((f, c, cur), rest))
    (hcg : cur ≠ goal) :
    onSeg start goal cur ∧
    MidInv width height start goal cur
      { st with openH := rest, openNodes := st.openNodes.erase cur } := by
  obtain ⟨hmem, hrest⟩ := pop_min_mem hpop
  have hleast := pop_min_least hpop
  have hcuro : cur ∈ st.openNodes := inv.heap_nodes _ hmem
  have hcura : assignedN st cur := inv.open_sub _ hcuro
  have hf : f = heuristic start cur + heuristic cur goal := inv.heap_f _ hmem
  obtain ⟨e₀, he₀, hseg₀⟩ := frontier_R hs hg inv
  have hf₀ : e₀.1 = heuristic start goal := by
    have h := inv.heap_f _ he₀
    rw [h]
    exact hseg₀
  have hfle : f ≤ heuristic start goal := by
    have h0 := entry_lt_eq_false.mp (hleast e₀ he₀)
    push_neg at h0
    omega
  have hseg : onSeg start goal cur := by
    have htri := heuristic_triangle start goal cur
    unfold onSeg
    omega
  have hfM : f = heuristic start goal := by
    unfold onSeg at hseg
    omega
  obtain ⟨d, hdM, h1, h2, h5⟩ := inv.layer
  have hdc : d ≤ heuristic start cur := by
    by_contra hlt
    push_neg at hlt
    exact (h1 cur hseg hlt).2 hcuro
  have hEnodup : st.openH.Nodup := inv.heap_nodes_nodup.of_map
  have hbelow : ∀ r, onSeg start goal r →
      heuristic start r < heuristic start cur → poppedN st r := by
    intro r hrseg hrlt
    have hdc2 : heuristic start cur ≤ d + 1 := h5 _ hmem hseg
    have hrled : heuristic start r ≤ d := by omega
    have hra : assignedN st r := assigned_of_seg inv hs hg d h1 r hrseg hrled
    by_contra hnp
    have hro : r ∈ st.openNodes := by
      by_contra hno
      exact hnp ⟨hra, hno⟩
    obtain ⟨e', he', hee'⟩ := inv.open_heap r hro
    have hctr : e'.2.1 < c := by
      have := inv.heap_order e' he' (f, c, cur) hmem
        (by rw [hee']; exact hrseg) hseg (by rw [hee']; exact hrlt)
      exact this
    have hfe' : e'.1 = f := by
      have h := inv.heap_f _ he'
      rw [h, hee', hfM]
      exact hrseg
    have h0 := entry_lt_eq_false.mp (hleast e' he')
    push_neg at h0
    have hcontr : c ≤ e'.2.1 := h0.2 hfe'
    omega
  have hmem_rest : ∀ e, e ∈ rest → e ∈ st.openH := by
    intro e he
    rw [hrest] at he
    exact List.mem_of_mem_erase he
  have hnode_ne : ∀ e, e ∈ rest → e.2.2 ≠ cur := by
    intro e he heq
    rw [hrest] at he
    obtain ⟨hne, heo⟩ := (List.Nodup.mem_erase_iff hEnodup).mp he
    have : e = (f, c, cur) :=
      List.inj_on_of_nodup_map inv.heap_nodes_nodup heo hmem heq
    exact hne this
  refine ⟨hseg, ?_⟩
  constructor
  · exact inv.g_opt
  · exact inv.g_inb
  · exact inv.start_assigned
  · exact inv.cf_start
  · exact inv.cf_total
  · exact inv.cf_step
  · intro n hn
    exact inv.open_sub n (List.mem_of_mem_erase hn)
  · exact List.Nodup.erase cur inv.open_nodup
  · intro e he
    dsimp only at he ⊢
    refine (List.Nodup.mem_erase_iff inv.open_nodup).mpr
      ⟨hnode_ne e he, inv.heap_nodes e (hmem_rest e he)⟩
  · dsimp only
    rw [hrest]
    exact List.Nodup.sublist
      (List.Sublist.map _ (List.erase_sublist _ _)) inv.heap_nodes_nodup
  · intro n hn
    dsimp only at hn ⊢
    obtain ⟨hne, hno⟩ := (List.Nodup.mem_erase_iff inv.open_nodup).mp hn
    obtain ⟨e, he, hee⟩ := inv.open_heap n hno
    refine ⟨e, ?_, hee⟩
    rw [hrest]
    refine (List.Nodup.mem_erase_iff hEnodup).mpr ⟨?_, he⟩
    intro heq
    rw [heq] at hee
    have hc : cur = n := hee
    exact hne hc.symm
  · intro e he
    exact inv.heap_f e (hmem_rest e he)
  · intro e he
    exact inv.heap_ctr e (hmem_rest e he)
  · intro e₁ h₁ e₂ h₂ hs₁ hs₂ hlt
    exact inv.heap_order e₁ (hmem_rest e₁ h₁) e₂ (hmem_rest e₂ h₂) hs₁ hs₂ hlt
  · intro hga
    dsimp only
    refine (List.Nodup.mem_erase_iff inv.open_nodup).mpr
      ⟨Ne.symm hcg, inv.goal_open hga⟩
  · obtain ⟨k, hk⟩ := Option.isSome_iff_exists.mp hcura
    dsimp only
    rw [hk, inv.g_opt _ _ hk]
  · intro r hrseg hrlt
    obtain ⟨hra, hno⟩ := hbelow r hrseg hrlt
    exact ⟨hra, fun hr => hno (List.mem_of_mem_erase hr)⟩
  · intro n hpn
    obtain ⟨ha, hno⟩ := hpn
    by_cases hn : n = cur
    · subst hn
      exact ⟨hseg, le_refl _⟩
    · have hnon : n ∉ st.openNodes := by
        intro hmo
        exact hno ((List.Nodup.mem_erase_iff inv.open_nodup).mpr ⟨hn, hmo⟩)
      obtain ⟨hsegn, hled⟩ := h2 n ⟨ha, hnon⟩
      exact ⟨hsegn, by omega⟩
  · intro e he hse
    have := h5 e (hmem_rest e he) hse
    omega

theorem mid_to_ainv {width height : ℤ} {start goal cur : Node} {st₂ : AState}
    (hcs : onSeg start goal cur)
    (hM : MidInv width height start goal cur st₂)
    (hexp : ∀ n, poppedN st₂ n → ∀ d ∈ dirs,
      in_bounds width height (step_dir n d) = true →
        assignedN st₂ (step_dir n d)) :
    AInv width height start goal st₂ :=
  { g_opt := hM.g_opt
    g_inb := hM.g_inb
    start_assigned := hM.start_assigned
    cf_start := hM.cf_start
    cf_total := hM.cf_total
    cf_step := hM.cf_step
    open_sub := hM.open_sub
    open_nodup := hM.open_nodup
    heap_nodes := hM.heap_nodes
    heap_nodes_nodup := hM.heap_nodes_nodup
    open_heap := hM.open_heap
    heap_f := hM.heap_f
    heap_ctr := hM.heap_ctr
    heap_order := hM.heap_order
    expanded := hexp
    goal_open := hM.goal_open
    layer := ⟨heuristic start cur, onSeg_le hcs, hM.layer1, hM.layer2, hM.layer5⟩ }

theorem adjacent_comm {a b : Node} (h : adjacent a b) : adjacent b a := by
  unfold adjacent at *
  omega

theorem pop_min_eq_none {l : List Entry} (h : pop_min l = none) : l = [] := by
  cases l with
  | nil => rfl
  | cons x xs => exact absurd h (by simp [pop_min])

theorem astar_loop_correct (width height : ℤ) (start goal : Node)
    (hs : in_bounds width height start = true)
    (hg : in_bounds width height goal = true)
    (hMf : heuristic start goal < width.toNat * height.toNat + 1) :
    ∀ (fuel : ℕ) (st : AState),
      AInv width height start goal st →
      astar_measure width height st ≤ fuel →
      ∃ p, astar_loop width height [] goal fuel st = some p ∧
        p.length = heuristic start goal + 1 ∧
        p.head? = some start ∧
        p.getLast? = some goal ∧
        List.Chain' adjacent p := by
  intro fuel
  induction fuel with
  | zero =>
    intro st inv hm
    exfalso
    obtain ⟨e, he, -⟩ := frontier_R hs hg inv
    have hpos : 0 < st.openH.length := List.length_pos_of_mem he
    unfold astar_measure at hm
    omega
  | succ n ih =>
    intro st inv hm
    unfold astar_loop
    cases hpm : pop_min st.openH with
    | none =>
      exfalso
      obtain ⟨e, he, -⟩ := frontier_R hs hg inv
      rw [pop_min_eq_none hpm] at he
      simp at he
    | some pr =>
      obtain ⟨⟨f, c, cur⟩, rest⟩ := pr
      obtain ⟨hmem, hrest⟩ := pop_min_mem hpm
      dsimp only
      by_cases hcur : cur = goal
      · rw [if_pos hcur]
        subst hcur
        have hcura : assignedN st cur := inv.open_sub _ (inv.heap_nodes _ hmem)
        obtain ⟨hlen, hhead, hlast, hchain⟩ :=
          reconstruct_spec st start inv.cf_start inv.cf_total inv.cf_step
            (width.toNat * height.toNat + 1) cur hcura hMf
        refine ⟨_, rfl, ?_, ?_, ?_, ?_⟩
        · rw [List.length_reverse]
          exact hlen
        · rw [List.head?_reverse]
          exact hlast
        · rw [List.getLast?_reverse]
          exact hhead
        · rw [List.chain'_reverse]
          exact List.Chain'.imp (fun a b hab => adjacent_comm hab) hchain
      · rw [if_neg hcur]
        obtain ⟨hseg, hmid⟩ := pop_analysis hs hg inv hpm hcur
        obtain ⟨hM2, hmono, hdirs, hpi, hmeas⟩ :=
          expand_effects width height start goal cur
            { st with openH := rest, openNodes := st.openNodes.erase cur }
            hseg hmid
        have hexp : ∀ m, poppedN (expand width height [] goal cur
            { st with openH := rest, openNodes := st.openNodes.erase cur }) m →
            ∀ d ∈ dirs, in_bounds width height (step_dir m d) = true →
              assignedN (expand width height [] goal cur
                { st with openH := rest, openNodes := st.openNodes.erase cur })
                (step_dir m d) := by
          intro m hpm2 d hd hb
          have hp1 := (hpi m).mp hpm2
          by_cases hmc : m = cur
          · subst hmc
            exact hdirs d hd hb
          · have hnon : m ∉ st.openNodes := by
              intro hmo
              exact hp1.2
                ((List.Nodup.mem_erase_iff inv.open_nodup).mpr ⟨hmc, hmo⟩)
            exact hmono _ (inv.expanded m ⟨hp1.1, hnon⟩ d hd hb)
        have hinv2 := mid_to_ainv hseg hM2 hexp
        have hlen1 : rest.length + 1 = st.openH.length := by
          rw [hrest, List.length_erase_of_mem hmem]
          have hpos : 0 < st.openH.length := List.length_pos_of_mem hmem
          omega
        have hms : astar_measure width height
            { st with openH := rest, openNodes := st.openNodes.erase cur } + 1 =
            astar_measure width height st := by
          unfold astar_measure unassigned_count
          dsimp only
          omega
        exact ih _ hinv2 (by omega)

/-- C3: for every start and goal coordinate within the 10×10 grid bounds and
an empty blocked set, `find_path` returns a path whose node count equals the
Manhattan distance between start and goal plus 1, whose first node is start
and last node is goal, and in which every consecutive pair of coordinates
differs by exactly one unit along exactly one axis. -/
theorem claim_C3 (start goal : Node)
    (hs : in_bounds GRID_WIDTH GRID_HEIGHT start = true)
    (hg : in_bounds GRID_WIDTH GRID_HEIGHT goal = true) :
    ∃ p, find_path start goal [] = some p ∧
      p.length = heuristic start goal + 1 ∧
      p.head? = some start ∧
      p.getLast? = some goal ∧
      List.Chain' adjacent p := by
  by_cases hne : start = goal
  · subst hne
    refine ⟨[start], ?_, ?_, rfl, rfl, List.chain'_singleton _⟩
    · unfold find_path
      rw [if_pos rfl]
    · simp [heuristic_self]
  · unfold find_path
    rw [if_neg hne]
    have hMf : heuristic start goal < GRID_WIDTH.toNat * GRID_HEIGHT.toNat + 1 := by
      have h100 : GRID_WIDTH.toNat * GRID_HEIGHT.toNat + 1 = 101 := by rfl
      rw [h100]
      unfold in_bounds GRID_WIDTH GRID_HEIGHT at hs hg
      simp only [Bool.and_eq_true, decide_eq_true_eq] at hs hg
      unfold heuristic
      omega
    have hcount : unassigned_count GRID_WIDTH GRID_HEIGHT (init_state start goal) ≤
        100 := by
      have h1 : unassigned_count GRID_WIDTH GRID_HEIGHT (init_state start goal) ≤
          (grid_nodes GRID_WIDTH GRID_HEIGHT).length := List.countP_le_length _
      have h2 : (grid_nodes GRID_WIDTH GRID_HEIGHT).length = 100 := by rfl
      omega
    exact astar_loop_correct GRID_WIDTH GRID_HEIGHT start goal hs hg hMf 40001
      (init_state start goal) (init_inv GRID_WIDTH GRID_HEIGHT start goal hs hg hne)
      (by
        unfold astar_measure
        have h1 : (init_state start goal).openH.length = 1 := rfl
        omega)

/-- Witness for C3 at the concrete corners `(0, 0)` and `(9, 9)`. -/
theorem claim_C3_witness :
    in_bounds GRID_WIDTH GRID_HEIGHT (0, 0) = true ∧
    in_bounds GRID_WIDTH GRID_HEIGHT (9, 9) = true ∧
    ∃ p, find_path (0, 0) (9, 9) [] = some p ∧
      p.length = heuristic (0, 0) (9, 9) + 1 ∧
      p.head? = some ((0, 0) : Node) ∧
      p.getLast? = some ((9, 9) : Node) ∧
      List.Chain' adjacent p :=
  ⟨by decide, by decide, claim_C3 (0, 0) (9, 9) (by decide) (by decide)⟩

end Warehouse
